import Mathlib

set_option autoImplicit false
set_option linter.unusedVariables false

/-!
Shallow embedding of the visual-servoing control law of vpServo.cpp (ViSP).

Matrices are lists of rows of rationals and vectors are lists of rationals.
The external dense linear-algebra collaborator is modelled as follows:
multiplication, addition, transpose and identity are given their mathematical
meaning (entries outside a list default to 0, which coincides with the C++
behaviour whenever dimensions match, as they do on every path exercised here);
resize with content preservation keeps existing entries in range and fills new
cells with 0; the pseudo-inverse (which returns the pseudo-inverse, the
numerical rank, and the range-space images) is an opaque oracle passed as a
parameter, since its implementation is outside this repository.

The function-local static iteration counter of computeControlLaw is modelled
as an explicit argument threaded next to the instance state, which makes its
process-wide (not per-instance) nature structural.
-/

namespace Visp

set_option allowUnsafeReducibility true

/- Core marks rational arithmetic irreducible, which blocks evaluation of the
concrete control-law runs inside decide; the kernel itself is unaffected by
reducibility attributes, so restoring the default transparency is harmless. -/
attribute [local semireducible] Rat.add Rat.mul Rat.sub

/-- Decidable equality of Except values with decidable components, used to
evaluate concrete runs. -/
instance instDecEqExcept {ε α : Type} [DecidableEq ε] [DecidableEq α] :
    DecidableEq (Except ε α) := fun a b =>
  match a, b with
  | Except.ok x, Except.ok y =>
    if h : x = y then Decidable.isTrue (by rw [h]) else Decidable.isFalse (by simp [h])
  | Except.error x, Except.error y =>
    if h : x = y then Decidable.isTrue (by rw [h]) else Decidable.isFalse (by simp [h])
  | Except.ok _, Except.error _ => Decidable.isFalse (by simp)
  | Except.error _, Except.ok _ => Decidable.isFalse (by simp)

abbrev Vec := List ℚ

abbrev Mat := List (List ℚ)

/-- Entry of a vector, 0 outside range (all accesses performed by the embedded
code are in range under the invariants maintained by the assembly loops). -/
def getV (v : Vec) (i : ℕ) : ℚ := v.getD i 0

/-- Entry of a matrix, 0 outside range. -/
def getE (A : Mat) (i j : ℕ) : ℚ := (A.getD i []).getD j 0

/-- Column count of a matrix (rows are kept rectangular by the assembly code,
so the length of the first row is the column count; an empty matrix gives 0). -/
def getCols (A : Mat) : ℕ := (A.headD []).length

/-- Matrix product, summing over the rows of the right factor (equal to the
C++ product whenever the inner dimensions agree). -/
def mulM (A B : Mat) : Mat :=
  (List.range A.length).map fun i =>
    (List.range (getCols B)).map fun j =>
      ((List.range B.length).map fun k => getE A i k * getE B k j).sum

/-- Matrix times column vector. -/
def mulMV (A : Mat) (v : Vec) : Vec :=
  (List.range A.length).map fun i =>
    ((List.range v.length).map fun k => getE A i k * getV v k).sum

/-- Transpose. -/
def transposeM (A : Mat) : Mat :=
  (List.range (getCols A)).map fun j =>
    (List.range A.length).map fun i => getE A i j

/-- Elementwise sum, with the shape of the left operand (the C++ operator
requires equal shapes, which holds on every path exercised here). -/
def addM (A B : Mat) : Mat :=
  (List.range A.length).map fun i =>
    (List.range (getCols A)).map fun j => getE A i j + getE B i j

/-- Elementwise difference, with the shape of the left operand. -/
def subM (A B : Mat) : Mat :=
  (List.range A.length).map fun i =>
    (List.range (getCols A)).map fun j => getE A i j - getE B i j

/-- Scalar times matrix. -/
def smulM (q : ℚ) (A : Mat) : Mat := A.map (List.map (fun x => q * x))

/-- Matrix divided by a scalar. -/
def divM (A : Mat) (q : ℚ) : Mat := A.map (List.map (fun x => x / q))

/-- Scalar times vector. -/
def smulV (q : ℚ) (v : Vec) : Vec := v.map (fun x => q * x)

/-- Vector sum, with the length of the left operand. -/
def addV (a b : Vec) : Vec :=
  (List.range a.length).map fun i => getV a i + getV b i

/-- Identity matrix. -/
def identityM (n : ℕ) : Mat :=
  (List.range n).map fun i => (List.range n).map fun j => if i = j then 1 else 0

/-- Zero matrix (vpMatrix constructed with explicit dimensions is zeroed). -/
def zerosM (r c : ℕ) : Mat := (List.range r).map fun _ => List.replicate c 0

/-- A row resized to exactly c entries: entries in range are kept, new cells
are 0 (the collaborator interface specifies content-preserving resize). -/
def normRowC (c : ℕ) (row : List ℚ) : List ℚ :=
  (List.range c).map fun j => row.getD j 0

/-- vpMatrix::resize with content preservation: r rows of c entries, keeping
entries that were in range and filling new cells with 0. -/
def resizeM (A : Mat) (r c : ℕ) : Mat :=
  (List.range r).map fun i => normRowC c (A.getD i [])

/-- vpColVector::resize with content preservation. -/
def resizeV (v : Vec) (n : ℕ) : Vec :=
  (List.range n).map fun i => v.getD i 0

/-- Fuel-driven form of the capacity-doubling loop
"while (needed > rowL) rowL *= 2".  With fuel at least the target and a
positive start the fuel never runs out (see growCap). -/
def growCapFuel : ℕ → ℕ → ℕ → ℕ
  | 0, rowL, _ => rowL
  | fuel + 1, rowL, target => if rowL < target then growCapFuel fuel (2 * rowL) target else rowL

/-- Final capacity reached by the doubling loop of the assembly code, starting
from capacity rowL (always positive at the call sites) with target entries
needed. -/
def growCap (rowL target : ℕ) : ℕ := growCapFuel target rowL target

/-- Overwrite the entries of v at positions cursor, cursor+1, ... with tmp
(the element-copy loop of the assembly code; all writes are in range at the
call sites). -/
def spliceV (v : Vec) (cursor : ℕ) (tmp : Vec) : Vec :=
  v.take cursor ++ tmp ++ v.drop (cursor + tmp.length)

/-- Overwrite rows cursor, cursor+1, ... of L with the rows of tmp; inside a
row only the first (row of tmp).length entries are written, the rest of the
stored row is kept (the copy loop writes columns j < colMatrixTmp only). -/
def spliceRows (L : Mat) (cursor : ℕ) (tmp : Mat) : Mat :=
  L.take cursor ++
    List.zipWith (fun trow orow => trow ++ orow.drop trow.length) tmp
      ((L.drop cursor).take tmp.length) ++
    L.drop (cursor + tmp.length)

/-- One iteration of the vector assembly loop of vpServo::computeError: grow
the buffer by doubling until the contribution fits, then copy it at the
cursor.  State is (buffer, allocated size, cursor). -/
def vecStep (acc : Vec × ℕ × ℕ) (tmp : Vec) : Vec × ℕ × ℕ :=
  let v := acc.1
  let dim := acc.2.1
  let cursor := acc.2.2
  let dim2 := growCap dim (tmp.length + cursor)
  let v2 := if dim < tmp.length + cursor then resizeV v dim2 else v
  (spliceV v2 cursor tmp, dim2, cursor + tmp.length)

/-- The stacked vector assembler: start with the previous size (or 1 if the
buffer is empty, in which case the initial resize zeroes it), fold the
contributions with vecStep, and shrink to the exact size consumed. -/
def vecAsm (contribs : List Vec) (buf : Vec) : Vec :=
  let start : Vec × ℕ × ℕ := if buf.length = 0 then (resizeV buf 1, 1, 0) else (buf, buf.length, 0)
  let fin := contribs.foldl vecStep start
  resizeV fin.1 fin.2.2

/-- One iteration of the matrix assembly loop of
computeInteractionMatrixFromList (column count is the constant colL = 6). -/
def matStep (acc : Mat × ℕ × ℕ) (tmp : Mat) : Mat × ℕ × ℕ :=
  let L := acc.1
  let rowL := acc.2.1
  let cursor := acc.2.2
  let rowL2 := growCap rowL (tmp.length + cursor)
  let L2 := if rowL < tmp.length + cursor then resizeM L rowL2 6 else L
  (spliceRows L2 cursor tmp, rowL2, cursor + tmp.length)

/-- The stacked matrix assembler: previous row count (or 1, with a zeroing
resize, on an empty buffer), doubling growth, final shrink to the rows
consumed with the fixed column count 6. -/
def matAsm (contribs : List Mat) (L0 : Mat) : Mat :=
  let start : Mat × ℕ × ℕ :=
    if L0.length = 0 then (resizeM L0 1 6, 1, 0) else (L0, L0.length, 0)
  let fin := contribs.foldl matStep start
  resizeM fin.1 fin.2.2 6

/-- Error kinds of vpServoException raised by the embedded code paths. -/
inductive Err where
  | noFeatureError
  | servoError
  | noDofFree
deriving DecidableEq, Repr

/-- servoEnum of vpServo. -/
inductive ServoType where
  | NONE
  | EYEINHAND_CAMERA
  | EYEINHAND_L_cVe_eJe
  | EYETOHAND_L_cVe_eJe
  | EYETOHAND_L_cVf_fVe_eJe
  | EYETOHAND_L_cVf_fJe
deriving DecidableEq, Repr

/-- Interaction matrix type: CURRENT, DESIRED or MEAN. -/
inductive IMType where
  | CURRENT
  | DESIRED
  | MEAN
deriving DecidableEq, Repr

/-- Inversion kind of the task Jacobian. -/
inductive InvType where
  | PSEUDO_INVERSE
  | TRANSPOSE
deriving DecidableEq, Repr

/-- Data of a visual feature as consumed by vpServo: dimension under a
selection mask, interaction matrix under a mask, current value vector, and
the deallocation tag (true when the feature is owned by the task). -/
structure FeatureData where
  dimF : Int → ℕ
  interactionF : Int → Mat
  sF : Vec
  deallocateF : Bool

/-- A visual feature, extending FeatureData with the feature-specific error
operation taking the paired desired feature and the selection mask. -/
structure BasicFeature extends FeatureData where
  errF : FeatureData → Int → Vec

/-- Result of the external pseudo-inverse collaborator: the pseudo-inverse
matrix, the numerical rank, and the range image of J1 and of its transpose. -/
structure PInvRes where
  pinvM : Mat
  rank : ℕ
  imJ1 : Mat
  imJ1t : Mat

/-- The state of a vpServo task instance (the member variables of the C++
class that the embedded code reads or writes).  rankJ1 is indeterminate at
construction in C++; concrete states below fix it explicitly. -/
structure vpServo where
  servoType : ServoType
  init_cVe : Bool
  init_cVf : Bool
  init_fVe : Bool
  init_eJe : Bool
  init_fJe : Bool
  dim_task : ℕ
  featureList : List BasicFeature
  desiredFeatureList : List BasicFeature
  featureSelectionList : List Int
  signInteractionMatrix : ℚ
  interactionMatrixType : IMType
  inversionType : InvType
  interactionMatrixComputed : Bool
  errorComputed : Bool
  taskWasKilled : Bool
  L : Mat
  error : Vec
  s : Vec
  sStar : Vec
  J1 : Mat
  J1p : Mat
  rankJ1 : ℕ
  WpW : Mat
  I_WpW : Mat
  e1 : Vec
  e : Vec
  cVe : Mat
  cVf : Mat
  fVe : Mat
  eJe : Mat
  fJe : Mat
  lambda : Vec → ℚ

/-- The interaction-matrix contributions of a feature list under the parallel
selection list (lockstep iteration of the two vpLists). -/
def contribsOf (fl : List BasicFeature) (sl : List Int) : List Mat :=
  List.zipWith (fun f sel => f.interactionF sel) fl sl

/-- computeInteractionMatrixFromList: empty feature list is a fatal
noFeatureError thrown before the buffer is touched; otherwise run the stacked
assembler over the per-feature interaction matrices. -/
def computeInteractionMatrixFromList (fl : List BasicFeature) (sl : List Int) (L : Mat) :
    Except Err Mat :=
  if fl.isEmpty then Except.error Err.noFeatureError
  else Except.ok (matAsm (contribsOf fl sl) L)

/-- vpServo::computeInteractionMatrix: dispatch on the interaction matrix
type; on success store the matrix, cache dim_task from its row count and mark
it computed.  In MEAN mode the second assembly runs on a zeroed matrix of the
buffer shape (vpMatrix Lstar(L.getRows(), L.getCols())), and a failure of the
second assembly leaves the member L already overwritten by the first. -/
def computeInteractionMatrix (st : vpServo) : vpServo × Except Err Mat :=
  match st.interactionMatrixType with
  | IMType.CURRENT =>
    match computeInteractionMatrixFromList st.featureList st.featureSelectionList st.L with
    | Except.error er => (st, Except.error er)
    | Except.ok L1 =>
      ({st with L := L1, dim_task := L1.length, interactionMatrixComputed := true},
        Except.ok L1)
  | IMType.DESIRED =>
    match computeInteractionMatrixFromList st.desiredFeatureList st.featureSelectionList st.L with
    | Except.error er => (st, Except.error er)
    | Except.ok L1 =>
      ({st with L := L1, dim_task := L1.length, interactionMatrixComputed := true},
        Except.ok L1)
  | IMType.MEAN =>
    let Lstar0 := zerosM st.L.length (getCols st.L)
    match computeInteractionMatrixFromList st.featureList st.featureSelectionList st.L with
    | Except.error er => (st, Except.error er)
    | Except.ok L1 =>
      match computeInteractionMatrixFromList st.desiredFeatureList st.featureSelectionList Lstar0 with
      | Except.error er => ({st with L := L1}, Except.error er)
      | Except.ok Lstar =>
        let L2 := divM (addM L1 Lstar) 2
        ({st with L := L2, dim_task := L2.length, interactionMatrixComputed := true},
          Except.ok L2)

/-- Lockstep iteration over three lists (current features, desired features,
selection masks). -/
def zip3 {α β γ : Type} : List α → List β → List γ → List (α × β × γ)
  | a :: as, b :: bs, c :: cs => (a, b, c) :: zip3 as bs cs
  | _, _, _ => []

/-- vpServo::computeError: empty current or desired list is a fatal
noFeatureError; otherwise one loop stacks, independently for the three
buffers s, sStar and error, the current values, desired values and
feature-specific errors (the three interleaved copy blocks of the source
update disjoint cursors, so they are written as three runs of the same
assembler), then dim_task is cached from the error length. -/
def computeError (st : vpServo) : vpServo × Except Err Vec :=
  if st.featureList.isEmpty then (st, Except.error Err.noFeatureError)
  else if st.desiredFeatureList.isEmpty then (st, Except.error Err.noFeatureError)
  else
    let triples := zip3 st.featureList st.desiredFeatureList st.featureSelectionList
    let s2 := vecAsm (triples.map fun t => t.1.sF) st.s
    let sStar2 := vecAsm (triples.map fun t => t.2.1.sF) st.sStar
    let err2 := vecAsm (triples.map fun t => t.1.errF t.2.1.toFeatureData t.2.2) st.error
    ({st with s := s2, sStar := sStar2, error := err2, dim_task := err2.length,
              errorComputed := true}, Except.ok err2)

/-- vpServo::getDimension: walk the feature and selection lists in lockstep
accumulating each feature's dimension under its mask into dim_task, then
return it. -/
def getDimension (st : vpServo) : vpServo × ℕ :=
  let d := (st.featureList.zip st.featureSelectionList).foldl
    (fun acc p => acc + p.1.dimF p.2) 0
  ({st with dim_task := d}, d)

/-- vpServo::kill: if the task was not killed yet, walk both lists in
lockstep releasing every feature tagged as task-owned (current first, then
desired, per entry), clear both lists and set the flag; otherwise do nothing.
The second component is the list of released features, in release order. -/
def kill (st : vpServo) : vpServo × List BasicFeature :=
  if st.taskWasKilled then (st, [])
  else
    let freed := (st.featureList.zip st.desiredFeatureList).flatMap fun p =>
      (if p.1.deallocateF then [p.1] else []) ++ (if p.2.deallocateF then [p.2] else [])
    ({st with featureList := [], desiredFeatureList := [], taskWasKilled := true}, freed)

/-- vpServo::testInitialization: throws servoError when no configuration was
chosen; camera-frame eye-in-hand is trivially initialized; the other modes
require their twist transforms and Jacobians to have been supplied once. -/
def testInitialization (st : vpServo) : Except Err Bool :=
  match st.servoType with
  | ServoType.NONE => Except.error Err.servoError
  | ServoType.EYEINHAND_CAMERA => Except.ok true
  | ServoType.EYEINHAND_L_cVe_eJe => Except.ok (st.init_cVe && st.init_eJe)
  | ServoType.EYETOHAND_L_cVe_eJe => Except.ok (st.init_cVe && st.init_eJe)
  | ServoType.EYETOHAND_L_cVf_fVe_eJe => Except.ok (st.init_cVf && st.init_fVe && st.init_eJe)
  | ServoType.EYETOHAND_L_cVf_fJe => Except.ok (st.init_cVf && st.init_fJe)

/-- vpServo::testUpdated: throws servoError when no configuration was chosen;
otherwise reports whether the freshness flags relevant to the configuration
are set (the caller of this predicate only traces a warning on false). -/
def testUpdated (st : vpServo) : Except Err Bool :=
  match st.servoType with
  | ServoType.NONE => Except.error Err.servoError
  | ServoType.EYEINHAND_CAMERA => Except.ok true
  | ServoType.EYEINHAND_L_cVe_eJe => Except.ok st.init_eJe
  | ServoType.EYETOHAND_L_cVe_eJe => Except.ok (st.init_cVe && st.init_eJe)
  | ServoType.EYETOHAND_L_cVf_fVe_eJe => Except.ok (st.init_fVe && st.init_eJe)
  | ServoType.EYETOHAND_L_cVf_fJe => Except.ok st.init_fJe

/-- The kinematic-selection switch of vpServo::computeControlLaw: pick
(cVa, aJe) for the configuration and clear the freshness flags the source
clears there (note the source never clears init_cVf). -/
def resolveKinematics (st : vpServo) : Except Err (Mat × Mat × vpServo) :=
  match st.servoType with
  | ServoType.NONE => Except.error Err.servoError
  | ServoType.EYEINHAND_CAMERA =>
    Except.ok (st.cVe, st.eJe, {st with init_cVe := false, init_eJe := false})
  | ServoType.EYEINHAND_L_cVe_eJe =>
    Except.ok (st.cVe, st.eJe, {st with init_cVe := false, init_eJe := false})
  | ServoType.EYETOHAND_L_cVe_eJe =>
    Except.ok (st.cVe, st.eJe, {st with init_cVe := false, init_eJe := false})
  | ServoType.EYETOHAND_L_cVf_fVe_eJe =>
    Except.ok (mulM st.cVf st.fVe, st.eJe, {st with init_fVe := false, init_eJe := false})
  | ServoType.EYETOHAND_L_cVf_fJe =>
    Except.ok (st.cVf, st.fJe, {st with init_fJe := false})

/-- The task Jacobian J1 = L * cVa * aJe scaled by the configuration sign
(J1 = L*cVa*aJe then J1 *= signInteractionMatrix in the source). -/
def taskJacobian (st : vpServo) (cVa aJe : Mat) : Mat :=
  smulM st.signInteractionMatrix (mulM (mulM st.L cVa) aJe)

/-- The tail of vpServo::computeControlLaw after interaction matrix and error
are computed: build the task Jacobian, invert it (pseudo-inverse with rank
and range images, or plain transpose), branch on the stored rank against the
column count of L, possibly form the range-space projector WpW (recomputing
the pseudo-inverse for its image when it was not computed in this call), and
produce e = -lambda(e1) * e1.  The four paths below are the source's two
branch points written out (the source shares them through the imageComputed
flag). -/
def lawCore (pinv : Mat → PInvRes) (st : vpServo) (cVa aJe : Mat) : vpServo :=
  let J1 := taskJacobian st cVa aJe
  if st.inversionType = InvType.PSEUDO_INVERSE then
    let r := pinv J1
    if r.rank = getCols st.L then
      let e1 := mulMV r.pinvM st.error
      {st with J1 := J1, J1p := r.pinvM, rankJ1 := r.rank, e1 := e1,
               e := smulV (-(st.lambda e1)) e1}
    else
      let WpW2 := mulM r.imJ1t (transposeM r.imJ1t)
      let e1 := mulMV (mulM WpW2 r.pinvM) st.error
      {st with J1 := J1, J1p := r.pinvM, rankJ1 := r.rank, WpW := WpW2, e1 := e1,
               e := smulV (-(st.lambda e1)) e1}
  else
    let J1p := transposeM J1
    if st.rankJ1 = getCols st.L then
      let e1 := mulMV J1p st.error
      {st with J1 := J1, J1p := J1p, e1 := e1, e := smulV (-(st.lambda e1)) e1}
    else
      let r2 := pinv J1
      let WpW2 := mulM r2.imJ1t (transposeM r2.imJ1t)
      let e1 := mulMV (mulM WpW2 J1p) st.error
      {st with J1 := J1, J1p := J1p, rankJ1 := r2.rank, WpW := WpW2, e1 := e1,
               e := smulV (-(st.lambda e1)) e1}

/-- The body of vpServo::computeControlLaw after the first-cycle
initialization test: per-cycle update test (result only traced, but the NONE
configuration throws there), kinematic resolution, interaction matrix, error,
then lawCore.  The iteration counter is incremented only when the cycle
completes (a thrown exception propagates before the increment). -/
def controlLawBody (pinv : Mat → PInvRes) (iteration : ℕ) (st : vpServo) :
    vpServo × ℕ × Except Err Vec :=
  match testUpdated st with
  | Except.error er => (st, iteration, Except.error er)
  | Except.ok _ =>
    match resolveKinematics st with
    | Except.error er => (st, iteration, Except.error er)
    | Except.ok (cVa, aJe, st1) =>
      match computeInteractionMatrix st1 with
      | (st2, Except.error er) => (st2, iteration, Except.error er)
      | (st2, Except.ok _) =>
        match computeError st2 with
        | (st3, Except.error er) => (st3, iteration, Except.error er)
        | (st3, Except.ok _) =>
          let st4 := lawCore pinv st3 cVa aJe
          (st4, iteration + 1, Except.ok st4.e)

/-- vpServo::computeControlLaw.  The function-local static iteration counter
is passed and returned explicitly; testInitialization is consulted only when
it is 0, and a false result is the fatal servoError of the source. -/
def computeControlLaw (pinv : Mat → PInvRes) (iteration : ℕ) (st : vpServo) :
    vpServo × ℕ × Except Err Vec :=
  if iteration = 0 then
    match testInitialization st with
    | Except.error er => (st, iteration, Except.error er)
    | Except.ok true => controlLawBody pinv iteration st
    | Except.ok false => (st, iteration, Except.error Err.servoError)
  else controlLawBody pinv iteration st

/-- vpServo::secondaryTask(de2dt): no free degree of freedom when the stored
rank equals the column count of L; otherwise store I - WpW (identity sized by
the columns of J1) and return (I - WpW) * de2dt. -/
def secondaryTask1 (st : vpServo) (de2dt : Vec) : vpServo × Except Err Vec :=
  if st.rankJ1 = getCols st.L then (st, Except.error Err.noDofFree)
  else
    let IW := subM (identityM (getCols st.J1)) st.WpW
    ({st with I_WpW := IW}, Except.ok (mulMV IW de2dt))

/-- vpServo::secondaryTask(e2, de2dt): as secondaryTask1, returning
-lambda(e2) * (I - WpW) * e2 + (I - WpW) * de2dt. -/
def secondaryTask2 (st : vpServo) (e2 de2dt : Vec) : vpServo × Except Err Vec :=
  if st.rankJ1 = getCols st.L then (st, Except.error Err.noDofFree)
  else
    let IW := subM (identityM (getCols st.J1)) st.WpW
    ({st with I_WpW := IW},
      Except.ok (addV (mulMV (smulM (-(st.lambda e2)) IW) e2) (mulMV IW de2dt)))

/-- Elementwise average of two matrices.  Modelled from the spec sentence
"computeInteractionMatrix() under average-mode equals the elementwise average
of the current-mode and desired-mode results", for comparison against the
MEAN branch of the source. -/
def avgM (A B : Mat) : Mat :=
  (List.range A.length).map fun i =>
    (List.range (getCols A)).map fun j => (getE A i j + getE B i j) / 2

/-! Concrete features, oracles and task states used by witnesses and
counterexamples. -/

/-- A one-dimensional feature with interaction row (1 0 0 0 0 0), current
value 2 and error contribution 1. -/
def feat1 : BasicFeature :=
  { dimF := fun _ => 1
    interactionF := fun _ => [[1, 0, 0, 0, 0, 0]]
    sF := [2]
    deallocateF := false
    errF := fun _ _ => [1] }

/-- Desired counterpart of feat1 (task-owned, value 0, zero error). -/
def dfeat1 : BasicFeature :=
  { dimF := fun _ => 1
    interactionF := fun _ => [[1, 0, 0, 0, 0, 0]]
    sF := [0]
    deallocateF := true
    errF := fun _ _ => [0] }

/-- A two-dimensional feature used by the dimension witnesses. -/
def feat2 : BasicFeature :=
  { dimF := fun _ => 2
    interactionF := fun _ => [[0, 1, 0, 0, 0, 0], [0, 0, 1, 0, 0, 0]]
    sF := [3, 4]
    deallocateF := false
    errF := fun _ _ => [3, 4] }

/-- Pseudo-inverse oracle returning the transpose as pseudo-inverse and the
transpose as range image of the transpose, with rank 1: these are the exact
values for the unit-row task Jacobians arising in the concrete runs below. -/
def pinvB : Mat → PInvRes :=
  fun A => { pinvM := transposeM A, rank := 1, imJ1 := [[1]], imJ1t := transposeM A }

/-- A base task state with every matrix empty, twists at their default
identity, flags cleared and unit gain; concrete states below override what
they need. -/
def base0 : vpServo :=
  { servoType := ServoType.NONE
    init_cVe := false, init_cVf := false, init_fVe := false
    init_eJe := false, init_fJe := false
    dim_task := 0
    featureList := [], desiredFeatureList := [], featureSelectionList := []
    signInteractionMatrix := 1
    interactionMatrixType := IMType.DESIRED
    inversionType := InvType.PSEUDO_INVERSE
    interactionMatrixComputed := false, errorComputed := false, taskWasKilled := false
    L := [], error := [], s := [], sStar := []
    J1 := [], J1p := [], rankJ1 := 0, WpW := [], I_WpW := [], e1 := [], e := []
    cVe := identityM 6, cVf := identityM 6, fVe := identityM 6
    eJe := [], fJe := []
    lambda := fun _ => 1 }

/-- A second task instance in the cVf-fVe-eJe eye-to-hand configuration whose
caller supplied fVe and eJe but never cVf: testInitialization is false, yet
all matrices are dimensionally consistent (cVf has its default identity
value), so a control-law cycle that skips the initialization test runs
through. -/
def stB : vpServo :=
  { base0 with
    servoType := ServoType.EYETOHAND_L_cVf_fVe_eJe
    signInteractionMatrix := -1
    init_fVe := true, init_eJe := true
    eJe := identityM 6
    interactionMatrixType := IMType.CURRENT
    featureList := [feat1], desiredFeatureList := [dfeat1], featureSelectionList := [0] }

/-- A camera-frame eye-in-hand task in transpose-inversion mode whose stored
rankJ1 is 0 (its value before any pseudo-inverse ever ran). -/
def stC : vpServo :=
  { base0 with
    servoType := ServoType.EYEINHAND_CAMERA
    init_cVe := true, init_eJe := true
    eJe := identityM 6
    inversionType := InvType.TRANSPOSE
    interactionMatrixType := IMType.CURRENT
    featureList := [feat1], desiredFeatureList := [dfeat1], featureSelectionList := [0] }

/-- An eye-to-hand cVf-fJe task with both its inputs supplied and a
distinctive cVf (the twist permuting the first two axes, so the selected cVa
visibly depends on it), used to show that the consumed cVf keeps its
freshness flag. -/
def stE : vpServo :=
  { base0 with
    servoType := ServoType.EYETOHAND_L_cVf_fJe
    signInteractionMatrix := -1
    init_cVf := true, init_fJe := true
    cVf := [[0, 1, 0, 0, 0, 0], [1, 0, 0, 0, 0, 0], [0, 0, 1, 0, 0, 0],
            [0, 0, 0, 1, 0, 0], [0, 0, 0, 0, 1, 0], [0, 0, 0, 0, 0, 1]]
    fJe := identityM 6
    interactionMatrixType := IMType.CURRENT
    featureList := [feat1], desiredFeatureList := [dfeat1], featureSelectionList := [0] }

/-- A camera-frame task with zero registered features and a nonzero cached
dim_task left over from an earlier cycle. -/
def stEmpty : vpServo :=
  { base0 with
    servoType := ServoType.EYEINHAND_CAMERA
    init_cVe := true, init_eJe := true
    eJe := identityM 6
    dim_task := 3 }

/-- A task with two registered features for the dimension witness. -/
def stG : vpServo :=
  { base0 with
    servoType := ServoType.EYEINHAND_CAMERA
    featureList := [feat1, feat2], desiredFeatureList := [dfeat1, feat2]
    featureSelectionList := [0, 0] }

/-- A featureless task with a stale nonzero dim_task for the empty-dimension
witness. -/
def stH : vpServo := { base0 with dim_task := 7 }

/-- A task used by the MEAN-average witness. -/
def stF : vpServo :=
  { base0 with
    servoType := ServoType.EYEINHAND_CAMERA
    featureList := [feat1], desiredFeatureList := [dfeat1], featureSelectionList := [0]
    L := [[5, 5, 5, 5, 5, 5], [7, 7, 7, 7, 7, 7]] }

/-- A task with a task-owned desired feature, for the kill witness runs. -/
def stK : vpServo :=
  { base0 with
    servoType := ServoType.EYEINHAND_CAMERA
    featureList := [feat1], desiredFeatureList := [dfeat1], featureSelectionList := [0] }

/-! Auxiliary lemmas about list access, resize, splice and capacity growth. -/

theorem getD_lt {α : Type} (l : List α) (d : α) {n : ℕ} (h : n < l.length) :
    l.getD n d = l[n] :=
  List.getD_eq_getElem l d h

theorem getD_ge {α : Type} (l : List α) (d : α) {n : ℕ} (h : l.length ≤ n) :
    l.getD n d = d := by
  rw [List.getD_eq_getElem?_getD, List.getElem?_eq_none h]
  rfl

theorem length_resizeV (v : Vec) (n : ℕ) : (resizeV v n).length = n := by
  simp [resizeV]

theorem getD_resizeV (v : Vec) (n : ℕ) {k : ℕ} (h : k < n) :
    (resizeV v n).getD k 0 = v.getD k 0 := by
  rw [getD_lt]
  · simp [resizeV]
  · simp [resizeV, h]

theorem length_normRowC (c : ℕ) (row : List ℚ) : (normRowC c row).length = c := by
  simp [normRowC]

theorem getD_normRowC (c : ℕ) (row : List ℚ) {j : ℕ} (h : j < c) :
    (normRowC c row).getD j 0 = row.getD j 0 := by
  rw [getD_lt]
  · simp [normRowC]
  · simp [normRowC, h]

theorem normRowC_self (c : ℕ) (row : List ℚ) (h : row.length = c) :
    normRowC c row = row := by
  apply List.ext_getElem
  · simp [length_normRowC, h]
  · intro n h1 h2
    rw [length_normRowC] at h1
    rw [← getD_lt _ 0 h2, ← getD_normRowC c row h1, getD_lt]

theorem normRowC_append (c : ℕ) (row t : List ℚ) (h : row.length = c) :
    normRowC c (row ++ t) = row := by
  apply List.ext_getElem
  · simp [length_normRowC, h]
  · intro n h1 h2
    rw [length_normRowC] at h1
    have h3 : n < (row ++ t).length := by
      simp only [List.length_append]; omega
    rw [← getD_lt (normRowC c (row ++ t)) 0 (by rw [length_normRowC]; exact h1),
      getD_normRowC c _ h1, getD_lt _ 0 h3, List.getElem_append_left h2]

theorem length_resizeM (A : Mat) (r c : ℕ) : (resizeM A r c).length = r := by
  simp [resizeM]

theorem getD_resizeM (A : Mat) (r c : ℕ) {i : ℕ} (h : i < r) :
    (resizeM A r c).getD i [] = normRowC c (A.getD i []) := by
  rw [getD_lt]
  · simp [resizeM]
  · simp [resizeM, h]

theorem mem_resizeM_length (A : Mat) (r c : ℕ) {row : List ℚ} (h : row ∈ resizeM A r c) :
    row.length = c := by
  simp only [resizeM, List.mem_map] at h
  obtain ⟨i, _, rfl⟩ := h
  exact length_normRowC c _

theorem growCapFuel_le (fuel r t : ℕ) : r ≤ growCapFuel fuel r t := by
  induction fuel generalizing r with
  | zero => exact Nat.le_refl r
  | succ n ih =>
    by_cases h : r < t
    · simp only [growCapFuel, if_pos h]
      exact Nat.le_trans (by omega) (ih (2 * r))
    · simp only [growCapFuel, if_neg h]
      exact Nat.le_refl r

theorem growCapFuel_ge (fuel r t : ℕ) (h : 0 < r) (h2 : t ≤ 2 ^ fuel * r) :
    t ≤ growCapFuel fuel r t := by
  induction fuel generalizing r with
  | zero =>
    simpa [growCapFuel] using h2
  | succ n ih =>
    by_cases hlt : r < t
    · simp only [growCapFuel, if_pos hlt]
      refine ih (2 * r) (by omega) ?_
      rw [pow_succ] at h2
      rwa [Nat.mul_assoc] at h2
    · simp only [growCapFuel, if_neg hlt]
      omega

theorem growCap_ge (r t : ℕ) (h : 0 < r) : t ≤ growCap r t := by
  refine growCapFuel_ge t r t h ?_
  calc t ≤ 2 ^ t := Nat.le_of_lt (Nat.lt_two_pow t)
  _ ≤ 2 ^ t * r := Nat.le_mul_of_pos_right _ h

theorem growCap_le (r t : ℕ) : r ≤ growCap r t := growCapFuel_le t r t

theorem growCap_of_ge (r t : ℕ) (h : t ≤ r) : growCap r t = r := by
  unfold growCap
  cases t with
  | zero => rfl
  | succ n => simp only [growCapFuel, if_neg (by omega : ¬ r < n + 1)]

theorem length_spliceV (v : Vec) (cursor : ℕ) (tmp : Vec)
    (h : cursor + tmp.length ≤ v.length) : (spliceV v cursor tmp).length = v.length := by
  simp only [spliceV, List.length_append, List.length_take, List.length_drop]
  omega

theorem getD_spliceV_lt (v : Vec) (cursor : ℕ) (tmp : Vec) {k : ℕ}
    (hk : k < cursor) (h : cursor ≤ v.length) :
    (spliceV v cursor tmp).getD k 0 = v.getD k 0 := by
  have hkv : k < v.length := Nat.lt_of_lt_of_le hk h
  have htk : k < (v.take cursor).length := by
    simp only [List.length_take]; omega
  have hfull : k < (spliceV v cursor tmp).length := by
    simp only [spliceV, List.length_append, List.length_take]
    omega
  rw [getD_lt _ 0 hfull, getD_lt _ 0 hkv]
  simp only [spliceV]
  have hk2 : k < (v.take cursor ++ tmp).length := by
    simp only [List.length_append, List.length_take]; omega
  rw [List.getElem_append_left hk2, List.getElem_append_left htk, List.getElem_take]

theorem getD_spliceV_mid (v : Vec) (cursor : ℕ) (tmp : Vec) {k : ℕ}
    (h1 : cursor ≤ k) (h2 : k < cursor + tmp.length) (h : cursor ≤ v.length) :
    (spliceV v cursor tmp).getD k 0 = tmp.getD (k - cursor) 0 := by
  have htake : (v.take cursor).length = cursor := by
    simp only [List.length_take]; omega
  have hfull : k < (spliceV v cursor tmp).length := by
    simp only [spliceV, List.length_append, List.length_take]
    omega
  rw [getD_lt _ 0 hfull, getD_lt _ 0 (by omega : k - cursor < tmp.length)]
  simp only [spliceV]
  have hk2 : k < (v.take cursor ++ tmp).length := by
    simp only [List.length_append, List.length_take]; omega
  rw [List.getElem_append_left hk2,
    List.getElem_append_right (by rw [htake]; exact h1)]
  simp only [htake]
theorem length_zipRows (L : Mat) (cursor : ℕ) (tmp : Mat)
    (h : cursor + tmp.length ≤ L.length) :
    (List.zipWith (fun trow orow => trow ++ orow.drop trow.length) tmp
      ((L.drop cursor).take tmp.length)).length = tmp.length := by
  simp only [List.length_zipWith, List.length_take, List.length_drop]
  omega

theorem length_spliceRows (L : Mat) (cursor : ℕ) (tmp : Mat)
    (h : cursor + tmp.length ≤ L.length) :
    (spliceRows L cursor tmp).length = L.length := by
  simp only [spliceRows, List.length_append, List.length_take, List.length_drop,
    length_zipRows L cursor tmp h]
  omega

theorem getD_spliceRows_lt (L : Mat) (cursor : ℕ) (tmp : Mat) {k : ℕ}
    (hk : k < cursor) (h : cursor + tmp.length ≤ L.length) :
    (spliceRows L cursor tmp).getD k [] = L.getD k [] := by
  have hkL : k < L.length := by omega
  have htk : k < (L.take cursor).length := by
    simp only [List.length_take]; omega
  have hfull : k < (spliceRows L cursor tmp).length := by
    rw [length_spliceRows L cursor tmp h]; omega
  rw [getD_lt _ [] hfull, getD_lt _ [] hkL]
  simp only [spliceRows]
  have hk2 : k < (L.take cursor ++ List.zipWith
      (fun trow orow => trow ++ orow.drop trow.length) tmp
      ((L.drop cursor).take tmp.length)).length := by
    simp only [List.length_append, List.length_take]; omega
  rw [List.getElem_append_left hk2, List.getElem_append_left htk, List.getElem_take]

theorem getD_spliceRows_mid (L : Mat) (cursor : ℕ) (tmp : Mat) {k : ℕ}
    (h1 : cursor ≤ k) (h2 : k < cursor + tmp.length) (h : cursor + tmp.length ≤ L.length) :
    (spliceRows L cursor tmp).getD k [] =
      tmp.getD (k - cursor) [] ++
        (L.getD k []).drop ((tmp.getD (k - cursor) []).length) := by
  have htake : (L.take cursor).length = cursor := by
    simp only [List.length_take]; omega
  have hzl : (List.zipWith (fun trow orow => trow ++ orow.drop trow.length) tmp
      ((L.drop cursor).take tmp.length)).length = tmp.length := length_zipRows L cursor tmp h
  have hfull : k < (spliceRows L cursor tmp).length := by
    rw [length_spliceRows L cursor tmp h]; omega
  have hkc : k - cursor < tmp.length := by omega
  have hkL : k < L.length := by omega
  rw [getD_lt _ [] hfull, getD_lt tmp [] hkc, getD_lt L [] hkL]
  simp only [spliceRows]
  have hk2 : k < (L.take cursor ++ List.zipWith
      (fun trow orow => trow ++ orow.drop trow.length) tmp
      ((L.drop cursor).take tmp.length)).length := by
    simp only [List.length_append, List.length_take, hzl]; omega
  rw [List.getElem_append_left hk2,
    List.getElem_append_right (by rw [htake]; exact h1)]
  have hidx : k - (L.take cursor).length < (List.zipWith
      (fun trow orow => trow ++ orow.drop trow.length) tmp
      ((L.drop cursor).take tmp.length)).length := by
    rw [hzl, htake]; omega
  rw [@List.getElem_zipWith _ _ _ _ _ _ _ hidx]
  simp only [htake, List.getElem_take, List.getElem_drop]
  have hck : cursor + (k - cursor) = k := by omega
  simp only [hck]
theorem getD_append_lt {α : Type} (a b : List α) (d : α) {k : ℕ} (h : k < a.length) :
    (a ++ b).getD k d = a.getD k d := by
  rw [getD_lt _ d (by simp only [List.length_append]; omega), getD_lt a d h,
    List.getElem_append_left h]

theorem getD_append_ge {α : Type} (a b : List α) (d : α) {k : ℕ} (h : a.length ≤ k) :
    (a ++ b).getD k d = b.getD (k - a.length) d := by
  by_cases hk : k < (a ++ b).length
  · have hb : k - a.length < b.length := by
      simp only [List.length_append] at hk; omega
    rw [getD_lt _ d hk, getD_lt b d hb, List.getElem_append_right h]
  · rw [getD_ge _ d (by omega), getD_ge b d (by simp only [List.length_append] at hk; omega)]

theorem normRowC_idem (c : ℕ) (row : List ℚ) :
    normRowC c (normRowC c row) = normRowC c row :=
  normRowC_self c (normRowC c row) (length_normRowC c row)

/-- One step of the vector assembly loop preserves the loop invariant: the
buffer length equals the tracked capacity, the capacity is positive, the
cursor counts exactly the entries written so far, and those entries are the
concatenation of the contributions processed so far. -/
theorem vecStep_inv (v : Vec) (dim cursor : ℕ) (done tmp : Vec)
    (hlen : v.length = dim) (hpos : 0 < dim) (hcur : cursor = done.length)
    (hle : cursor ≤ dim)
    (hpre : ∀ k, k < done.length → v.getD k 0 = done.getD k 0) :
    (vecStep (v, dim, cursor) tmp).1.length = (vecStep (v, dim, cursor) tmp).2.1 ∧
    0 < (vecStep (v, dim, cursor) tmp).2.1 ∧
    (vecStep (v, dim, cursor) tmp).2.2 = (done ++ tmp).length ∧
    (done ++ tmp).length ≤ (vecStep (v, dim, cursor) tmp).2.1 ∧
    (∀ k, k < (done ++ tmp).length →
      (vecStep (v, dim, cursor) tmp).1.getD k 0 = (done ++ tmp).getD k 0) := by
  have hg1 : dim ≤ growCap dim (tmp.length + cursor) := growCap_le _ _
  have hg2 : tmp.length + cursor ≤ growCap dim (tmp.length + cursor) := growCap_ge _ _ hpos
  simp only [vecStep]
  set dim2 := growCap dim (tmp.length + cursor) with hdim2
  have hv2len : (if dim < tmp.length + cursor then resizeV v dim2 else v).length = dim2 := by
    by_cases hc : dim < tmp.length + cursor
    · rw [if_pos hc, length_resizeV]
    · rw [if_neg hc, hlen, hdim2, growCap_of_ge dim _ (by omega)]
  have hv2pre : ∀ k, k < done.length →
      (if dim < tmp.length + cursor then resizeV v dim2 else v).getD k 0 = done.getD k 0 := by
    intro k hk
    by_cases hc : dim < tmp.length + cursor
    · rw [if_pos hc, getD_resizeV v dim2 (by omega)]
      exact hpre k hk
    · rw [if_neg hc]
      exact hpre k hk
  set v2 := if dim < tmp.length + cursor then resizeV v dim2 else v with hv2
  have hcv2 : cursor + tmp.length ≤ v2.length := by rw [hv2len]; omega
  refine ⟨?_, by omega, ?_, ?_, ?_⟩
  · rw [length_spliceV v2 cursor tmp hcv2, hv2len]
  · simp only [List.length_append]; omega
  · simp only [List.length_append]; omega
  · intro k hk
    simp only [List.length_append] at hk
    by_cases hkc : k < cursor
    · rw [getD_spliceV_lt v2 cursor tmp hkc (by omega), hv2pre k (by omega),
        getD_append_lt done tmp 0 (by omega)]
    · rw [getD_spliceV_mid v2 cursor tmp (by omega) (by omega) (by omega),
        getD_append_ge done tmp 0 (by omega), hcur]

/-- The vector assembly fold carries the invariant of vecStep_inv along any
list of contributions. -/
theorem vecFold_inv (l : List Vec) : ∀ (v : Vec) (dim cursor : ℕ) (done : Vec),
    v.length = dim → 0 < dim → cursor = done.length → cursor ≤ dim →
    (∀ k, k < done.length → v.getD k 0 = done.getD k 0) →
    (List.foldl vecStep (v, dim, cursor) l).1.length =
      (List.foldl vecStep (v, dim, cursor) l).2.1 ∧
    0 < (List.foldl vecStep (v, dim, cursor) l).2.1 ∧
    (List.foldl vecStep (v, dim, cursor) l).2.2 = (done ++ l.flatten).length ∧
    (done ++ l.flatten).length ≤ (List.foldl vecStep (v, dim, cursor) l).2.1 ∧
    (∀ k, k < (done ++ l.flatten).length →
      (List.foldl vecStep (v, dim, cursor) l).1.getD k 0 = (done ++ l.flatten).getD k 0) := by
  induction l with
  | nil =>
    intro v dim cursor done hlen hpos hcur hle hpre
    simp only [List.foldl_nil, List.flatten_nil, List.append_nil]
    exact ⟨hlen, hpos, by omega, by omega, hpre⟩
  | cons t l ih =>
    intro v dim cursor done hlen hpos hcur hle hpre
    obtain ⟨s1, s2, s3, s4, s5⟩ := vecStep_inv v dim cursor done t hlen hpos hcur hle hpre
    have := ih (vecStep (v, dim, cursor) t).1 (vecStep (v, dim, cursor) t).2.1
      (vecStep (v, dim, cursor) t).2.2 (done ++ t) s1 s2 s3 (by rw [s3]; exact s4) s5
    simpa only [List.foldl_cons, List.flatten_cons, List.append_assoc] using this

/-- Common final step of the vector assembler: folding from an empty cursor
over a positive capacity and shrinking to the cursor yields the concatenation
of the contributions. -/
theorem vecAsmFinal (cs : List Vec) (v : Vec) (dim : ℕ)
    (hlen : v.length = dim) (hpos : 0 < dim) :
    resizeV (List.foldl vecStep (v, dim, 0) cs).1 (List.foldl vecStep (v, dim, 0) cs).2.2 =
      cs.flatten := by
  obtain ⟨f1, f2, f3, f4, f5⟩ := vecFold_inv cs v dim 0 [] hlen hpos rfl (by omega)
    (by intro k hk; simp at hk)
  simp only [List.nil_append] at f3 f4 f5
  set A := (List.foldl vecStep (v, dim, 0) cs).1 with hA
  set m := (List.foldl vecStep (v, dim, 0) cs).2.2 with hm
  apply List.ext_getElem
  · rw [length_resizeV, f3]
  · intro n hn1 hn2
    rw [length_resizeV] at hn1
    have hn3 : n < cs.flatten.length := by rw [← f3]; exact hn1
    calc (resizeV A m)[n] = (resizeV A m).getD n 0 := by
          rw [getD_lt _ 0 (by rw [length_resizeV]; exact hn1)]
      _ = A.getD n 0 := getD_resizeV A m hn1
      _ = cs.flatten.getD n 0 := f5 n hn3
      _ = cs.flatten[n] := getD_lt _ 0 hn2

/-- The stacked vector assembler returns exactly the concatenation of the
contributions, whatever buffer it starts from. -/
theorem vecAsm_eq_flatten (cs : List Vec) (buf : Vec) : vecAsm cs buf = cs.flatten := by
  unfold vecAsm
  by_cases hb : buf.length = 0
  · rw [if_pos hb]
    exact vecAsmFinal cs (resizeV buf 1) 1 (length_resizeV buf 1) (by omega)
  · rw [if_neg hb]
    exact vecAsmFinal cs buf buf.length rfl (by omega)

/-- Every row of a resized matrix has exactly the requested column count. -/
theorem matAsm_rows (cs : List Mat) (L0 : Mat) {row : List ℚ}
    (h : row ∈ matAsm cs L0) : row.length = 6 := by
  unfold matAsm at h
  exact mem_resizeM_length _ _ _ h

/-- One step of the matrix assembly loop preserves the loop invariant; rows
written so far are recovered exactly (through the 6-column view) when every
contribution row has exactly 6 entries. -/
theorem matStep_inv (L : Mat) (rowL cursor : ℕ) (done tmp : Mat)
    (hlen : L.length = rowL) (hpos : 0 < rowL) (hcur : cursor = done.length)
    (hle : cursor ≤ rowL)
    (hpre : ∀ k, k < done.length → normRowC 6 (L.getD k []) = done.getD k [])
    (htmp : ∀ row ∈ tmp, row.length = 6) :
    (matStep (L, rowL, cursor) tmp).1.length = (matStep (L, rowL, cursor) tmp).2.1 ∧
    0 < (matStep (L, rowL, cursor) tmp).2.1 ∧
    (matStep (L, rowL, cursor) tmp).2.2 = (done ++ tmp).length ∧
    (done ++ tmp).length ≤ (matStep (L, rowL, cursor) tmp).2.1 ∧
    (∀ k, k < (done ++ tmp).length →
      normRowC 6 ((matStep (L, rowL, cursor) tmp).1.getD k []) = (done ++ tmp).getD k []) := by
  have hg1 : rowL ≤ growCap rowL (tmp.length + cursor) := growCap_le _ _
  have hg2 : tmp.length + cursor ≤ growCap rowL (tmp.length + cursor) := growCap_ge _ _ hpos
  simp only [matStep]
  set rowL2 := growCap rowL (tmp.length + cursor) with hrowL2
  have hL2len : (if rowL < tmp.length + cursor then resizeM L rowL2 6 else L).length = rowL2 := by
    by_cases hc : rowL < tmp.length + cursor
    · rw [if_pos hc, length_resizeM]
    · rw [if_neg hc, hlen, hrowL2, growCap_of_ge rowL _ (by omega)]
  have hL2pre : ∀ k, k < done.length →
      normRowC 6 ((if rowL < tmp.length + cursor then resizeM L rowL2 6 else L).getD k []) =
        done.getD k [] := by
    intro k hk
    by_cases hc : rowL < tmp.length + cursor
    · rw [if_pos hc, getD_resizeM L rowL2 6 (by omega), normRowC_idem]
      exact hpre k hk
    · rw [if_neg hc]
      exact hpre k hk
  set L2 := if rowL < tmp.length + cursor then resizeM L rowL2 6 else L with hL2
  have hcL2 : cursor + tmp.length ≤ L2.length := by rw [hL2len]; omega
  refine ⟨?_, by omega, ?_, ?_, ?_⟩
  · rw [length_spliceRows L2 cursor tmp hcL2, hL2len]
  · simp only [List.length_append]; omega
  · simp only [List.length_append]; omega
  · intro k hk
    simp only [List.length_append] at hk
    by_cases hkc : k < cursor
    · rw [getD_spliceRows_lt L2 cursor tmp hkc hcL2, hL2pre k (by omega),
        getD_append_lt done tmp [] (by omega)]
    · have hmem : tmp.getD (k - cursor) [] ∈ tmp := by
        rw [getD_lt tmp [] (by omega)]
        exact List.getElem_mem _
      rw [getD_spliceRows_mid L2 cursor tmp (by omega) (by omega) hcL2,
        normRowC_append 6 _ _ (htmp _ hmem),
        getD_append_ge done tmp [] (by omega), hcur]

/-- The matrix assembly fold carries the invariant along any contribution
list whose rows all have 6 entries. -/
theorem matFold_inv (l : List Mat) : ∀ (L : Mat) (rowL cursor : ℕ) (done : Mat),
    L.length = rowL → 0 < rowL → cursor = done.length → cursor ≤ rowL →
    (∀ k, k < done.length → normRowC 6 (L.getD k []) = done.getD k []) →
    (∀ M ∈ l, ∀ row ∈ M, row.length = 6) →
    (List.foldl matStep (L, rowL, cursor) l).1.length =
      (List.foldl matStep (L, rowL, cursor) l).2.1 ∧
    0 < (List.foldl matStep (L, rowL, cursor) l).2.1 ∧
    (List.foldl matStep (L, rowL, cursor) l).2.2 = (done ++ l.flatten).length ∧
    (done ++ l.flatten).length ≤ (List.foldl matStep (L, rowL, cursor) l).2.1 ∧
    (∀ k, k < (done ++ l.flatten).length →
      normRowC 6 ((List.foldl matStep (L, rowL, cursor) l).1.getD k []) =
        (done ++ l.flatten).getD k []) := by
  induction l with
  | nil =>
    intro L rowL cursor done hlen hpos hcur hle hpre hw
    simp only [List.foldl_nil, List.flatten_nil, List.append_nil]
    exact ⟨hlen, hpos, by omega, by omega, hpre⟩
  | cons t l ih =>
    intro L rowL cursor done hlen hpos hcur hle hpre hw
    obtain ⟨s1, s2, s3, s4, s5⟩ := matStep_inv L rowL cursor done t hlen hpos hcur hle hpre
      (hw t (List.mem_cons_self t l))
    have := ih (matStep (L, rowL, cursor) t).1 (matStep (L, rowL, cursor) t).2.1
      (matStep (L, rowL, cursor) t).2.2 (done ++ t) s1 s2 s3 (by rw [s3]; exact s4) s5
      (fun M hM => hw M (List.mem_cons_of_mem t hM))
    simpa only [List.foldl_cons, List.flatten_cons, List.append_assoc] using this

/-- Common final step of the matrix assembler. -/
theorem matAsmFinal (cs : List Mat) (L : Mat) (rowL : ℕ)
    (hlen : L.length = rowL) (hpos : 0 < rowL)
    (hw : ∀ M ∈ cs, ∀ row ∈ M, row.length = 6) :
    resizeM (List.foldl matStep (L, rowL, 0) cs).1 (List.foldl matStep (L, rowL, 0) cs).2.2 6 =
      cs.flatten := by
  obtain ⟨f1, f2, f3, f4, f5⟩ := matFold_inv cs L rowL 0 [] hlen hpos rfl (by omega)
    (by intro k hk; simp at hk) hw
  simp only [List.nil_append] at f3 f4 f5
  set A := (List.foldl matStep (L, rowL, 0) cs).1 with hA
  set m := (List.foldl matStep (L, rowL, 0) cs).2.2 with hm
  apply List.ext_getElem
  · rw [length_resizeM, f3]
  · intro n hn1 hn2
    rw [length_resizeM] at hn1
    have hn3 : n < cs.flatten.length := by rw [← f3]; exact hn1
    calc (resizeM A m 6)[n] = (resizeM A m 6).getD n [] := by
          rw [getD_lt _ [] (by rw [length_resizeM]; exact hn1)]
      _ = normRowC 6 (A.getD n []) := getD_resizeM A m 6 hn1
      _ = cs.flatten.getD n [] := f5 n hn3
      _ = cs.flatten[n] := getD_lt _ [] hn2

/-- The stacked matrix assembler returns exactly the stack of the
contribution rows, whatever buffer it starts from, provided every
contribution row has the fixed width 6. -/
theorem matAsm_eq_flatten (cs : List Mat) (L0 : Mat)
    (hw : ∀ M ∈ cs, ∀ row ∈ M, row.length = 6) : matAsm cs L0 = cs.flatten := by
  unfold matAsm
  by_cases hb : L0.length = 0
  · rw [if_pos hb]
    exact matAsmFinal cs (resizeM L0 1 6) 1 (length_resizeM L0 1 6) (by omega) hw
  · rw [if_neg hb]
    exact matAsmFinal cs L0 L0.length rfl (by omega) hw
theorem isEmpty_false_of_ne {α : Type} (l : List α) (h : l ≠ []) : l.isEmpty = false := by
  cases l with
  | nil => exact absurd rfl h
  | cons a t => rfl

/-- The matrix assembly entry point, written out: a nonempty feature list
with 6-wide interaction contributions assembles to their stack. -/
theorem cimFromList_eq (fl : List BasicFeature) (sl : List Int) (buf : Mat)
    (hne : fl ≠ [])
    (hw : ∀ M ∈ contribsOf fl sl, ∀ row ∈ M, row.length = 6) :
    computeInteractionMatrixFromList fl sl buf = Except.ok ((contribsOf fl sl).flatten) := by
  unfold computeInteractionMatrixFromList
  rw [isEmpty_false_of_ne fl hne]
  simp only [Bool.false_eq_true, if_false]
  rw [matAsm_eq_flatten _ _ hw]

theorem cimFromList_empty (sl : List Int) (buf : Mat) :
    computeInteractionMatrixFromList [] sl buf = Except.error Err.noFeatureError := rfl

theorem getCols_of_rows (A : Mat) (hA : A ≠ []) (h : ∀ row ∈ A, row.length = 6) :
    getCols A = 6 := by
  cases A with
  | nil => exact absurd rfl hA
  | cons r t => exact h r (List.mem_cons_self r t)

/-! Equation lemmas reducing each servo operation on known scrutinees. -/

theorem cim_eq_current (st : vpServo) (hty : st.interactionMatrixType = IMType.CURRENT)
    (L1 : Mat)
    (hr : computeInteractionMatrixFromList st.featureList st.featureSelectionList st.L =
      Except.ok L1) :
    computeInteractionMatrix st =
      ({st with L := L1, dim_task := L1.length, interactionMatrixComputed := true},
        Except.ok L1) := by
  simp only [computeInteractionMatrix, hty, hr]

theorem cim_eq_current_err (st : vpServo) (hty : st.interactionMatrixType = IMType.CURRENT)
    (er : Err)
    (hr : computeInteractionMatrixFromList st.featureList st.featureSelectionList st.L =
      Except.error er) :
    computeInteractionMatrix st = (st, Except.error er) := by
  simp only [computeInteractionMatrix, hty, hr]

theorem cim_eq_desired (st : vpServo) (hty : st.interactionMatrixType = IMType.DESIRED)
    (L1 : Mat)
    (hr : computeInteractionMatrixFromList st.desiredFeatureList st.featureSelectionList st.L =
      Except.ok L1) :
    computeInteractionMatrix st =
      ({st with L := L1, dim_task := L1.length, interactionMatrixComputed := true},
        Except.ok L1) := by
  simp only [computeInteractionMatrix, hty, hr]

theorem cim_eq_desired_err (st : vpServo) (hty : st.interactionMatrixType = IMType.DESIRED)
    (er : Err)
    (hr : computeInteractionMatrixFromList st.desiredFeatureList st.featureSelectionList st.L =
      Except.error er) :
    computeInteractionMatrix st = (st, Except.error er) := by
  simp only [computeInteractionMatrix, hty, hr]

theorem cim_eq_mean (st : vpServo) (hty : st.interactionMatrixType = IMType.MEAN)
    (L1 Lstar : Mat)
    (hr1 : computeInteractionMatrixFromList st.featureList st.featureSelectionList st.L =
      Except.ok L1)
    (hr2 : computeInteractionMatrixFromList st.desiredFeatureList st.featureSelectionList
      (zerosM st.L.length (getCols st.L)) = Except.ok Lstar) :
    computeInteractionMatrix st =
      ({st with L := divM (addM L1 Lstar) 2, dim_task := (divM (addM L1 Lstar) 2).length,
                interactionMatrixComputed := true},
        Except.ok (divM (addM L1 Lstar) 2)) := by
  simp only [computeInteractionMatrix, hty, hr1, hr2]

theorem cim_eq_mean_err1 (st : vpServo) (hty : st.interactionMatrixType = IMType.MEAN)
    (er : Err)
    (hr1 : computeInteractionMatrixFromList st.featureList st.featureSelectionList st.L =
      Except.error er) :
    computeInteractionMatrix st = (st, Except.error er) := by
  simp only [computeInteractionMatrix, hty, hr1]

theorem cim_eq_mean_err2 (st : vpServo) (hty : st.interactionMatrixType = IMType.MEAN)
    (L1 : Mat) (er : Err)
    (hr1 : computeInteractionMatrixFromList st.featureList st.featureSelectionList st.L =
      Except.ok L1)
    (hr2 : computeInteractionMatrixFromList st.desiredFeatureList st.featureSelectionList
      (zerosM st.L.length (getCols st.L)) = Except.error er) :
    computeInteractionMatrix st = ({st with L := L1}, Except.error er) := by
  simp only [computeInteractionMatrix, hty, hr1, hr2]

theorem cimFromList_rows (fl : List BasicFeature) (sl : List Int) (buf : Mat) (L1 : Mat)
    (hr : computeInteractionMatrixFromList fl sl buf = Except.ok L1) :
    ∀ row ∈ L1, row.length = 6 := by
  unfold computeInteractionMatrixFromList at hr
  by_cases hb : fl.isEmpty
  · rw [if_pos hb] at hr
    exact absurd hr (by simp)
  · rw [if_neg (by simp [hb])] at hr
    have := Except.ok.inj hr
    subst this
    intro row hrow
    exact matAsm_rows _ _ hrow

theorem cimFromList_err (fl : List BasicFeature) (sl : List Int) (buf : Mat) (er : Err)
    (hr : computeInteractionMatrixFromList fl sl buf = Except.error er) :
    fl = [] ∧ er = Err.noFeatureError := by
  unfold computeInteractionMatrixFromList at hr
  by_cases hb : fl.isEmpty
  · rw [if_pos hb] at hr
    refine ⟨?_, (Except.error.inj hr).symm⟩
    cases fl with
    | nil => rfl
    | cons a t => exact absurd hb (by simp)
  · rw [if_neg (by simp [hb])] at hr
    exact absurd hr (by simp)

/-- computeInteractionMatrix only ever changes L, dim_task and the computed
flag of the state. -/
theorem cim_shape (st : vpServo) : ∃ L2 d2 b2, (computeInteractionMatrix st).1 =
    {st with L := L2, dim_task := d2, interactionMatrixComputed := b2} := by
  cases hty : st.interactionMatrixType
  case CURRENT =>
    cases hr : computeInteractionMatrixFromList st.featureList st.featureSelectionList st.L with
    | error er =>
      rw [cim_eq_current_err st hty er hr]
      exact ⟨st.L, st.dim_task, st.interactionMatrixComputed, by rw [← hty]⟩
    | ok L1 =>
      rw [cim_eq_current st hty L1 hr]
      exact ⟨L1, L1.length, true, by rw [← hty]⟩
  case DESIRED =>
    cases hr : computeInteractionMatrixFromList st.desiredFeatureList st.featureSelectionList
        st.L with
    | error er =>
      rw [cim_eq_desired_err st hty er hr]
      exact ⟨st.L, st.dim_task, st.interactionMatrixComputed, by rw [← hty]⟩
    | ok L1 =>
      rw [cim_eq_desired st hty L1 hr]
      exact ⟨L1, L1.length, true, by rw [← hty]⟩
  case MEAN =>
    cases hr1 : computeInteractionMatrixFromList st.featureList st.featureSelectionList st.L with
    | error er =>
      rw [cim_eq_mean_err1 st hty er hr1]
      exact ⟨st.L, st.dim_task, st.interactionMatrixComputed, by rw [← hty]⟩
    | ok L1 =>
      cases hr2 : computeInteractionMatrixFromList st.desiredFeatureList st.featureSelectionList
          (zerosM st.L.length (getCols st.L)) with
      | error er =>
        rw [cim_eq_mean_err2 st hty L1 er hr1 hr2]
        exact ⟨L1, st.dim_task, st.interactionMatrixComputed, by rw [← hty]⟩
      | ok Lstar =>
        rw [cim_eq_mean st hty L1 Lstar hr1 hr2]
        exact ⟨divM (addM L1 Lstar) 2, (divM (addM L1 Lstar) 2).length, true, by rw [← hty]⟩

/-- A successful computeInteractionMatrix stores the returned matrix in L,
caches dim_task from its row count, and every row of it has 6 entries. -/
theorem cim_ok_spec (st : vpServo) (LL : Mat)
    (h : (computeInteractionMatrix st).2 = Except.ok LL) :
    (computeInteractionMatrix st).1.L = LL ∧
    (computeInteractionMatrix st).1.dim_task = LL.length ∧
    (∀ row ∈ LL, row.length = 6) := by
  cases hty : st.interactionMatrixType
  case CURRENT =>
    cases hr : computeInteractionMatrixFromList st.featureList st.featureSelectionList st.L with
    | error er => rw [cim_eq_current_err st hty er hr] at h; exact absurd h (by simp)
    | ok L1 =>
      rw [cim_eq_current st hty L1 hr] at h ⊢
      obtain rfl : L1 = LL := Except.ok.inj h
      exact ⟨rfl, rfl, cimFromList_rows _ _ _ _ hr⟩
  case DESIRED =>
    cases hr : computeInteractionMatrixFromList st.desiredFeatureList st.featureSelectionList
        st.L with
    | error er => rw [cim_eq_desired_err st hty er hr] at h; exact absurd h (by simp)
    | ok L1 =>
      rw [cim_eq_desired st hty L1 hr] at h ⊢
      obtain rfl : L1 = LL := Except.ok.inj h
      exact ⟨rfl, rfl, cimFromList_rows _ _ _ _ hr⟩
  case MEAN =>
    cases hr1 : computeInteractionMatrixFromList st.featureList st.featureSelectionList st.L with
    | error er => rw [cim_eq_mean_err1 st hty er hr1] at h; exact absurd h (by simp)
    | ok L1 =>
      cases hr2 : computeInteractionMatrixFromList st.desiredFeatureList st.featureSelectionList
          (zerosM st.L.length (getCols st.L)) with
      | error er => rw [cim_eq_mean_err2 st hty L1 er hr1 hr2] at h; exact absurd h (by simp)
      | ok Lstar =>
        rw [cim_eq_mean st hty L1 Lstar hr1 hr2] at h ⊢
        obtain rfl : divM (addM L1 Lstar) 2 = LL := Except.ok.inj h
        refine ⟨rfl, rfl, ?_⟩
        intro row hrow
        simp only [divM, List.mem_map] at hrow
        obtain ⟨row0, hrow0, rfl⟩ := hrow
        simp only [addM, List.mem_map] at hrow0
        obtain ⟨i, hi, rfl⟩ := hrow0
        have hL1 : L1 ≠ [] := by
          intro hnil
          subst hnil
          simp at hi
        simp only [List.length_map, List.length_range]
        exact getCols_of_rows L1 hL1 (cimFromList_rows _ _ _ _ hr1)

theorem cim_error_kind (st : vpServo) (er : Err)
    (h : (computeInteractionMatrix st).2 = Except.error er) : er = Err.noFeatureError := by
  cases hty : st.interactionMatrixType
  case CURRENT =>
    cases hr : computeInteractionMatrixFromList st.featureList st.featureSelectionList st.L with
    | error e2 =>
      rw [cim_eq_current_err st hty e2 hr] at h
      obtain rfl : e2 = er := Except.error.inj h
      exact (cimFromList_err _ _ _ _ hr).2
    | ok L1 => rw [cim_eq_current st hty L1 hr] at h; exact absurd h (by simp)
  case DESIRED =>
    cases hr : computeInteractionMatrixFromList st.desiredFeatureList st.featureSelectionList
        st.L with
    | error e2 =>
      rw [cim_eq_desired_err st hty e2 hr] at h
      obtain rfl : e2 = er := Except.error.inj h
      exact (cimFromList_err _ _ _ _ hr).2
    | ok L1 => rw [cim_eq_desired st hty L1 hr] at h; exact absurd h (by simp)
  case MEAN =>
    cases hr1 : computeInteractionMatrixFromList st.featureList st.featureSelectionList st.L with
    | error e2 =>
      rw [cim_eq_mean_err1 st hty e2 hr1] at h
      obtain rfl : e2 = er := Except.error.inj h
      exact (cimFromList_err _ _ _ _ hr1).2
    | ok L1 =>
      cases hr2 : computeInteractionMatrixFromList st.desiredFeatureList st.featureSelectionList
          (zerosM st.L.length (getCols st.L)) with
      | error e2 =>
        rw [cim_eq_mean_err2 st hty L1 e2 hr1 hr2] at h
        obtain rfl : e2 = er := Except.error.inj h
        exact (cimFromList_err _ _ _ _ hr2).2
      | ok Lstar => rw [cim_eq_mean st hty L1 Lstar hr1 hr2] at h; exact absurd h (by simp)

/-- With both feature lists empty, computeInteractionMatrix fails with the
no-feature error leaving the state untouched, in every interaction-matrix
mode. -/
theorem cim_empty (st : vpServo) (hf : st.featureList = [])
    (hd : st.desiredFeatureList = []) :
    computeInteractionMatrix st = (st, Except.error Err.noFeatureError) := by
  cases hty : st.interactionMatrixType
  case CURRENT => exact cim_eq_current_err st hty _ (by rw [hf]; rfl)
  case DESIRED => exact cim_eq_desired_err st hty _ (by rw [hd]; rfl)
  case MEAN => exact cim_eq_mean_err1 st hty _ (by rw [hf]; rfl)

/-- With an empty current feature list, computeError fails with the
no-feature error leaving the state untouched. -/
theorem cerr_empty (st : vpServo) (hf : st.featureList = []) :
    computeError st = (st, Except.error Err.noFeatureError) := by
  unfold computeError
  rw [hf]
  rfl

/-- On nonempty feature lists computeError succeeds and only changes s,
sStar, error, dim_task (to the new error length) and the computed flag. -/
theorem cerr_eq (st : vpServo) (hf : st.featureList ≠ []) (hd : st.desiredFeatureList ≠ []) :
    ∃ S2 SS2 E2, computeError st =
      ({st with s := S2, sStar := SS2, error := E2, dim_task := E2.length,
                errorComputed := true}, Except.ok E2) := by
  unfold computeError
  rw [isEmpty_false_of_ne _ hf, isEmpty_false_of_ne _ hd]
  simp only [Bool.false_eq_true, if_false]
  exact ⟨_, _, _, rfl⟩

theorem cerr_error_kind (st : vpServo) (er : Err)
    (h : (computeError st).2 = Except.error er) : er = Err.noFeatureError := by
  unfold computeError at h
  by_cases h1 : st.featureList.isEmpty
  · rw [if_pos h1] at h
    exact (Except.error.inj h).symm
  · rw [if_neg h1] at h
    by_cases h2 : st.desiredFeatureList.isEmpty
    · rw [if_pos h2] at h
      exact (Except.error.inj h).symm
    · rw [if_neg h2] at h
      exact absurd h (by simp)

theorem tu_error_kind (st : vpServo) (er : Err) (h : testUpdated st = Except.error er) :
    st.servoType = ServoType.NONE ∧ er = Err.servoError := by
  cases hty : st.servoType <;> simp only [testUpdated, hty] at h <;>
    first
      | exact ⟨rfl, (Except.error.inj h).symm⟩
      | exact absurd h (by simp)

theorem ti_error_kind (st : vpServo) (er : Err) (h : testInitialization st = Except.error er) :
    st.servoType = ServoType.NONE ∧ er = Err.servoError := by
  cases hty : st.servoType <;> simp only [testInitialization, hty] at h <;>
    first
      | exact ⟨rfl, (Except.error.inj h).symm⟩
      | exact absurd h (by simp)

theorem resolve_error_kind (st : vpServo) (er : Err)
    (h : resolveKinematics st = Except.error er) :
    st.servoType = ServoType.NONE ∧ er = Err.servoError := by
  cases hty : st.servoType <;> simp only [resolveKinematics, hty] at h <;>
    first
      | exact ⟨rfl, (Except.error.inj h).symm⟩
      | exact absurd h (by simp)
/-! Equation lemmas for the kinematic selection switch. -/

theorem resolve_eq_cam (st : vpServo) (hty : st.servoType = ServoType.EYEINHAND_CAMERA) :
    resolveKinematics st =
      Except.ok (st.cVe, st.eJe, {st with init_cVe := false, init_eJe := false}) := by
  simp only [resolveKinematics, hty]

theorem resolve_eq_eih (st : vpServo) (hty : st.servoType = ServoType.EYEINHAND_L_cVe_eJe) :
    resolveKinematics st =
      Except.ok (st.cVe, st.eJe, {st with init_cVe := false, init_eJe := false}) := by
  simp only [resolveKinematics, hty]

theorem resolve_eq_eth (st : vpServo) (hty : st.servoType = ServoType.EYETOHAND_L_cVe_eJe) :
    resolveKinematics st =
      Except.ok (st.cVe, st.eJe, {st with init_cVe := false, init_eJe := false}) := by
  simp only [resolveKinematics, hty]

theorem resolve_eq_fve (st : vpServo) (hty : st.servoType = ServoType.EYETOHAND_L_cVf_fVe_eJe) :
    resolveKinematics st =
      Except.ok (mulM st.cVf st.fVe, st.eJe, {st with init_fVe := false, init_eJe := false}) := by
  simp only [resolveKinematics, hty]

theorem resolve_eq_fje (st : vpServo) (hty : st.servoType = ServoType.EYETOHAND_L_cVf_fJe) :
    resolveKinematics st =
      Except.ok (st.cVf, st.fJe, {st with init_fJe := false}) := by
  simp only [resolveKinematics, hty]

/-- The kinematic selection only clears freshness flags: the selected state
differs from the input at most in init_cVe, init_fVe, init_eJe and init_fJe,
and the init_cVf flag is never touched. -/
theorem resolve_shape (st : vpServo) (p : Mat × Mat × vpServo)
    (h : resolveKinematics st = Except.ok p) :
    ∃ b1 b3 b4 b5, p.2.2 = {st with init_cVe := b1, init_fVe := b3,
                                    init_eJe := b4, init_fJe := b5} := by
  cases hty : st.servoType
  case NONE =>
    simp only [resolveKinematics, hty] at h
    exact absurd h (by simp)
  case EYEINHAND_CAMERA =>
    rw [resolve_eq_cam st hty] at h
    obtain rfl := (Except.ok.inj h).symm
    exact ⟨false, st.init_fVe, false, st.init_fJe, by rw [← hty]⟩
  case EYEINHAND_L_cVe_eJe =>
    rw [resolve_eq_eih st hty] at h
    obtain rfl := (Except.ok.inj h).symm
    exact ⟨false, st.init_fVe, false, st.init_fJe, by rw [← hty]⟩
  case EYETOHAND_L_cVe_eJe =>
    rw [resolve_eq_eth st hty] at h
    obtain rfl := (Except.ok.inj h).symm
    exact ⟨false, st.init_fVe, false, st.init_fJe, by rw [← hty]⟩
  case EYETOHAND_L_cVf_fVe_eJe =>
    rw [resolve_eq_fve st hty] at h
    obtain rfl := (Except.ok.inj h).symm
    exact ⟨st.init_cVe, false, false, st.init_fJe, by rw [← hty]⟩
  case EYETOHAND_L_cVf_fJe =>
    rw [resolve_eq_fje st hty] at h
    obtain rfl := (Except.ok.inj h).symm
    exact ⟨st.init_cVe, st.init_fVe, st.init_eJe, false, by rw [← hty]⟩
/-! Equation lemmas for the four paths of lawCore. -/

theorem lawCore_eq_p_full (pinv : Mat → PInvRes) (st : vpServo) (cVa aJe : Mat)
    (hinv : st.inversionType = InvType.PSEUDO_INVERSE)
    (hrk : (pinv (taskJacobian st cVa aJe)).rank = getCols st.L) :
    lawCore pinv st cVa aJe =
      {st with J1 := taskJacobian st cVa aJe,
               J1p := (pinv (taskJacobian st cVa aJe)).pinvM,
               rankJ1 := (pinv (taskJacobian st cVa aJe)).rank,
               e1 := mulMV (pinv (taskJacobian st cVa aJe)).pinvM st.error,
               e := smulV (-(st.lambda (mulMV (pinv (taskJacobian st cVa aJe)).pinvM st.error)))
                 (mulMV (pinv (taskJacobian st cVa aJe)).pinvM st.error)} := by
  simp only [lawCore, hinv, if_true]
  rw [if_pos hrk]

theorem lawCore_eq_p_def (pinv : Mat → PInvRes) (st : vpServo) (cVa aJe : Mat)
    (hinv : st.inversionType = InvType.PSEUDO_INVERSE)
    (hrk : (pinv (taskJacobian st cVa aJe)).rank ≠ getCols st.L) :
    lawCore pinv st cVa aJe =
      {st with J1 := taskJacobian st cVa aJe,
               J1p := (pinv (taskJacobian st cVa aJe)).pinvM,
               rankJ1 := (pinv (taskJacobian st cVa aJe)).rank,
               WpW := mulM (pinv (taskJacobian st cVa aJe)).imJ1t
                 (transposeM (pinv (taskJacobian st cVa aJe)).imJ1t),
               e1 := mulMV (mulM (mulM (pinv (taskJacobian st cVa aJe)).imJ1t
                   (transposeM (pinv (taskJacobian st cVa aJe)).imJ1t))
                 (pinv (taskJacobian st cVa aJe)).pinvM) st.error,
               e := smulV (-(st.lambda (mulMV (mulM (mulM (pinv (taskJacobian st cVa aJe)).imJ1t
                     (transposeM (pinv (taskJacobian st cVa aJe)).imJ1t))
                   (pinv (taskJacobian st cVa aJe)).pinvM) st.error)))
                 (mulMV (mulM (mulM (pinv (taskJacobian st cVa aJe)).imJ1t
                     (transposeM (pinv (taskJacobian st cVa aJe)).imJ1t))
                   (pinv (taskJacobian st cVa aJe)).pinvM) st.error)} := by
  simp only [lawCore, hinv, if_true]
  rw [if_neg hrk]

theorem lawCore_eq_t_full (pinv : Mat → PInvRes) (st : vpServo) (cVa aJe : Mat)
    (hinv : st.inversionType = InvType.TRANSPOSE)
    (hrk : st.rankJ1 = getCols st.L) :
    lawCore pinv st cVa aJe =
      {st with J1 := taskJacobian st cVa aJe,
               J1p := transposeM (taskJacobian st cVa aJe),
               e1 := mulMV (transposeM (taskJacobian st cVa aJe)) st.error,
               e := smulV (-(st.lambda (mulMV (transposeM (taskJacobian st cVa aJe)) st.error)))
                 (mulMV (transposeM (taskJacobian st cVa aJe)) st.error)} := by
  simp only [lawCore, hinv]
  rw [if_neg (by decide), if_pos hrk]

theorem lawCore_eq_t_def (pinv : Mat → PInvRes) (st : vpServo) (cVa aJe : Mat)
    (hinv : st.inversionType = InvType.TRANSPOSE)
    (hrk : st.rankJ1 ≠ getCols st.L) :
    lawCore pinv st cVa aJe =
      {st with J1 := taskJacobian st cVa aJe,
               J1p := transposeM (taskJacobian st cVa aJe),
               rankJ1 := (pinv (taskJacobian st cVa aJe)).rank,
               WpW := mulM (pinv (taskJacobian st cVa aJe)).imJ1t
                 (transposeM (pinv (taskJacobian st cVa aJe)).imJ1t),
               e1 := mulMV (mulM (mulM (pinv (taskJacobian st cVa aJe)).imJ1t
                   (transposeM (pinv (taskJacobian st cVa aJe)).imJ1t))
                 (transposeM (taskJacobian st cVa aJe))) st.error,
               e := smulV (-(st.lambda (mulMV (mulM (mulM (pinv (taskJacobian st cVa aJe)).imJ1t
                     (transposeM (pinv (taskJacobian st cVa aJe)).imJ1t))
                   (transposeM (taskJacobian st cVa aJe))) st.error)))
                 (mulMV (mulM (mulM (pinv (taskJacobian st cVa aJe)).imJ1t
                     (transposeM (pinv (taskJacobian st cVa aJe)).imJ1t))
                   (transposeM (taskJacobian st cVa aJe))) st.error)} := by
  simp only [lawCore, hinv]
  rw [if_neg (by decide), if_neg hrk]
/-- lawCore only ever changes J1, J1p, rankJ1, WpW, e1 and e. -/
theorem lawCore_shape (pinv : Mat → PInvRes) (st : vpServo) (cVa aJe : Mat) :
    ∃ a b c d f g, lawCore pinv st cVa aJe =
      {st with J1 := a, J1p := b, rankJ1 := c, WpW := d, e1 := f, e := g} := by
  cases hinv : st.inversionType
  case PSEUDO_INVERSE =>
    by_cases hrk : (pinv (taskJacobian st cVa aJe)).rank = getCols st.L
    · rw [lawCore_eq_p_full pinv st cVa aJe hinv hrk]
      exact ⟨_, _, _, st.WpW, _, _, by rw [← hinv]⟩
    · rw [lawCore_eq_p_def pinv st cVa aJe hinv hrk]
      exact ⟨_, _, _, _, _, _, by rw [← hinv]⟩
  case TRANSPOSE =>
    by_cases hrk : st.rankJ1 = getCols st.L
    · rw [lawCore_eq_t_full pinv st cVa aJe hinv hrk]
      exact ⟨_, _, st.rankJ1, st.WpW, _, _, by rw [← hinv]⟩
    · rw [lawCore_eq_t_def pinv st cVa aJe hinv hrk]
      exact ⟨_, _, _, _, _, _, by rw [← hinv]⟩

/-- Whenever the rank stored by lawCore differs from the column count of L,
the stored projector is the one computed in this very call from the range
image of the task Jacobian of this call. -/
theorem lawCore_WpW (pinv : Mat → PInvRes) (st : vpServo) (cVa aJe : Mat)
    (hne : (lawCore pinv st cVa aJe).rankJ1 ≠ getCols st.L) :
    (lawCore pinv st cVa aJe).WpW =
      mulM (pinv ((lawCore pinv st cVa aJe).J1)).imJ1t
        (transposeM (pinv ((lawCore pinv st cVa aJe).J1)).imJ1t) := by
  cases hinv : st.inversionType
  case PSEUDO_INVERSE =>
    by_cases hrk : (pinv (taskJacobian st cVa aJe)).rank = getCols st.L
    · rw [lawCore_eq_p_full pinv st cVa aJe hinv hrk] at hne
      exact absurd hrk hne
    · rw [lawCore_eq_p_def pinv st cVa aJe hinv hrk]
  case TRANSPOSE =>
    by_cases hrk : st.rankJ1 = getCols st.L
    · rw [lawCore_eq_t_full pinv st cVa aJe hinv hrk] at hne
      exact absurd hrk hne
    · rw [lawCore_eq_t_def pinv st cVa aJe hinv hrk]

/-- Success equation for the control-law body. -/
theorem body_eq_ok (pinv : Mat → PInvRes) (it : ℕ) (st : vpServo) (b : Bool)
    (cVa aJe : Mat) (st1 stI stE2 : vpServo) (LL : Mat) (ee : Vec)
    (hu : testUpdated st = Except.ok b)
    (hr : resolveKinematics st = Except.ok (cVa, aJe, st1))
    (hI : computeInteractionMatrix st1 = (stI, Except.ok LL))
    (hE : computeError stI = (stE2, Except.ok ee)) :
    controlLawBody pinv it st =
      (lawCore pinv stE2 cVa aJe, it + 1, Except.ok (lawCore pinv stE2 cVa aJe).e) := by
  simp only [controlLawBody, hu, hr, hI, hE]

/-- Inversion of a successful control-law body run. -/
theorem body_ok (pinv : Mat → PInvRes) (it : ℕ) (st st2 : vpServo) (it2 : ℕ) (v : Vec)
    (h : controlLawBody pinv it st = (st2, it2, Except.ok v)) :
    ∃ cVa aJe st1 stI stE2,
      resolveKinematics st = Except.ok (cVa, aJe, st1) ∧
      (∃ LL, computeInteractionMatrix st1 = (stI, Except.ok LL)) ∧
      (∃ ee, computeError stI = (stE2, Except.ok ee)) ∧
      st2 = lawCore pinv stE2 cVa aJe ∧ it2 = it + 1 ∧ v = st2.e := by
  cases hu : testUpdated st with
  | error er =>
    simp only [controlLawBody, hu, Prod.mk.injEq] at h
    exact absurd h.2.2 (by simp)
  | ok b =>
    cases hr : resolveKinematics st with
    | error er =>
      simp only [controlLawBody, hu, hr, Prod.mk.injEq] at h
      exact absurd h.2.2 (by simp)
    | ok trip =>
      obtain ⟨cVa, aJe, st1⟩ := trip
      rcases hI : computeInteractionMatrix st1 with ⟨stI, exI⟩
      cases exI with
      | error er =>
        simp only [controlLawBody, hu, hr, hI, Prod.mk.injEq] at h
        exact absurd h.2.2 (by simp)
      | ok LL =>
        rcases hE : computeError stI with ⟨stE2, exE⟩
        cases exE with
        | error er =>
          simp only [controlLawBody, hu, hr, hI, hE, Prod.mk.injEq] at h
          exact absurd h.2.2 (by simp)
        | ok ee =>
          rw [body_eq_ok pinv it st b cVa aJe st1 stI stE2 LL ee hu hr hI hE] at h
          simp only [Prod.mk.injEq] at h
          obtain ⟨h1, h2, h3⟩ := h
          refine ⟨cVa, aJe, st1, stI, stE2, rfl, ⟨LL, hI⟩, ⟨ee, hE⟩, h1.symm, h2.symm, ?_⟩
          rw [← h1]
          exact (Except.ok.inj h3).symm

/-- A successful computeControlLaw runs exactly the control-law body. -/
theorem law_ok_body (pinv : Mat → PInvRes) (it : ℕ) (st st2 : vpServo) (it2 : ℕ) (v : Vec)
    (h : computeControlLaw pinv it st = (st2, it2, Except.ok v)) :
    controlLawBody pinv it st = (st2, it2, Except.ok v) := by
  unfold computeControlLaw at h
  by_cases hit : it = 0
  · rw [if_pos hit] at h
    cases hti : testInitialization st with
    | error er =>
      simp only [hti, Prod.mk.injEq] at h
      exact absurd h.2.2 (by simp)
    | ok b =>
      cases b with
      | true => simpa only [hti] using h
      | false =>
        simp only [hti, Prod.mk.injEq] at h
        exact absurd h.2.2 (by simp)
  · rw [if_neg hit] at h
    exact h
/-- A failed control-law body leaves the iteration counter unchanged, and it
reports servoError only for the undefined configuration. -/
theorem body_err (pinv : Mat → PInvRes) (it : ℕ) (st st2 : vpServo) (it2 : ℕ) (er : Err)
    (h : controlLawBody pinv it st = (st2, it2, Except.error er)) :
    it2 = it ∧ (er = Err.servoError → st.servoType = ServoType.NONE) := by
  cases hu : testUpdated st with
  | error er0 =>
    simp only [controlLawBody, hu, Prod.mk.injEq] at h
    exact ⟨h.2.1.symm, fun _ => (tu_error_kind st er0 hu).1⟩
  | ok b =>
    cases hr : resolveKinematics st with
    | error er0 =>
      simp only [controlLawBody, hu, hr, Prod.mk.injEq] at h
      exact ⟨h.2.1.symm, fun _ => (resolve_error_kind st er0 hr).1⟩
    | ok trip =>
      obtain ⟨cVa, aJe, st1⟩ := trip
      rcases hI : computeInteractionMatrix st1 with ⟨stI, exI⟩
      cases exI with
      | error er0 =>
        simp only [controlLawBody, hu, hr, hI, Prod.mk.injEq] at h
        refine ⟨h.2.1.symm, fun hs => ?_⟩
        have hk : er0 = Err.noFeatureError :=
          cim_error_kind st1 er0 (by rw [hI])
        have her : er0 = er := Except.error.inj h.2.2
        rw [her, hs] at hk
        exact absurd hk (by simp)
      | ok LL =>
        rcases hE : computeError stI with ⟨stE2, exE⟩
        cases exE with
        | error er0 =>
          simp only [controlLawBody, hu, hr, hI, hE, Prod.mk.injEq] at h
          refine ⟨h.2.1.symm, fun hs => ?_⟩
          have hk : er0 = Err.noFeatureError :=
            cerr_error_kind stI er0 (by rw [hE])
          have her : er0 = er := Except.error.inj h.2.2
          rw [her, hs] at hk
          exact absurd hk (by simp)
        | ok ee =>
          rw [body_eq_ok pinv it st b cVa aJe st1 stI stE2 LL ee hu hr hI hE] at h
          simp only [Prod.mk.injEq] at h
          exact absurd h.2.2 (by simp)

/-- The static counter is incremented exactly by the successful cycles. -/
theorem law_iter (pinv : Mat → PInvRes) (it : ℕ) (st st2 : vpServo) (it2 : ℕ)
    (ex : Except Err Vec) (h : computeControlLaw pinv it st = (st2, it2, ex)) :
    (∀ v, ex = Except.ok v → it2 = it + 1) ∧ (∀ er, ex = Except.error er → it2 = it) := by
  cases ex with
  | ok v =>
    refine ⟨fun w _ => ?_, fun er he => absurd he (by simp)⟩
    obtain ⟨_, _, _, _, _, _, _, _, _, hit2, _⟩ :=
      body_ok pinv it st st2 it2 v (law_ok_body pinv it st st2 it2 v h)
    exact hit2
  | error er =>
    refine ⟨fun v hv => absurd hv (by simp), fun er2 _ => ?_⟩
    unfold computeControlLaw at h
    by_cases hit : it = 0
    · rw [if_pos hit] at h
      cases hti : testInitialization st with
      | error er0 =>
        simp only [hti, Prod.mk.injEq] at h
        exact h.2.1.symm
      | ok b =>
        cases b with
        | true =>
          rw [hti] at h
          exact (body_err pinv it st st2 it2 er h).1
        | false =>
          simp only [hti, Prod.mk.injEq] at h
          exact h.2.1.symm
    · rw [if_neg hit] at h
      exact (body_err pinv it st st2 it2 er h).1

/-- On any cycle after the first (nonzero static counter), the control law
reports servoError only for the undefined configuration: the failed
initialization test of a later task instance goes unchecked. -/
theorem law_err_servo (pinv : Mat → PInvRes) (it : ℕ) (st st2 : vpServo) (it2 : ℕ)
    (hit : it ≠ 0)
    (h : computeControlLaw pinv it st = (st2, it2, Except.error Err.servoError)) :
    st.servoType = ServoType.NONE := by
  unfold computeControlLaw at h
  rw [if_neg hit] at h
  exact (body_err pinv it st st2 it2 Err.servoError h).2 rfl
theorem foldl_add_sum {α : Type} (f : α → ℕ) (l : List α) (a : ℕ) :
    l.foldl (fun acc p => acc + f p) a = a + (l.map f).sum := by
  induction l generalizing a with
  | nil => simp
  | cons t l ih =>
    simp only [List.foldl_cons, List.map_cons, List.sum_cons, ih (a + f t)]
    omega

theorem tu_ok_of_ne (st : vpServo) (h : st.servoType ≠ ServoType.NONE) :
    ∃ b, testUpdated st = Except.ok b := by
  cases hty : st.servoType
  case NONE => exact absurd hty h
  all_goals exact ⟨_, by simp only [testUpdated, hty]; rfl⟩

theorem resolve_ok_of_ne (st : vpServo) (h : st.servoType ≠ ServoType.NONE) :
    ∃ p, resolveKinematics st = Except.ok p := by
  cases hty : st.servoType
  case NONE => exact absurd hty h
  all_goals exact ⟨_, by simp only [resolveKinematics, hty]; rfl⟩

theorem kill_killed (st : vpServo) (h : st.taskWasKilled = true) : kill st = (st, []) := by
  unfold kill
  rw [if_pos h]

theorem kill_flag (st : vpServo) : ((kill st).1).taskWasKilled = true := by
  unfold kill
  by_cases hk : st.taskWasKilled = true
  · rw [if_pos hk]
    exact hk
  · rw [if_neg hk]

/-- C8: getDimension returns the sum, over the registered feature entries in
registration order, of each feature's dimension under its selection mask,
and as a side effect stores exactly that sum in the cached dim_task field
(the state is otherwise unchanged).  The length hypothesis records the
lockstep-iteration invariant of the two parallel vpLists. -/
theorem get_dimension_sum (st : vpServo)
    (hlen : st.featureList.length = st.featureSelectionList.length) :
    (getDimension st).2 =
      ((st.featureList.zip st.featureSelectionList).map (fun p => p.1.dimF p.2)).sum ∧
    (getDimension st).1 = {st with dim_task :=
      ((st.featureList.zip st.featureSelectionList).map (fun p => p.1.dimF p.2)).sum} := by
  unfold getDimension
  rw [foldl_add_sum]
  exact ⟨Nat.zero_add _, by rw [Nat.zero_add]⟩

/-- Witness for C8 on a two-feature task of dimensions 1 and 2. -/
theorem get_dimension_sum_witness :
    stG.featureList.length = stG.featureSelectionList.length ∧
    ((getDimension stG).2 =
      ((stG.featureList.zip stG.featureSelectionList).map (fun p => p.1.dimF p.2)).sum ∧
    (getDimension stG).1 = {stG with dim_task :=
      ((stG.featureList.zip stG.featureSelectionList).map (fun p => p.1.dimF p.2)).sum}) ∧
    (getDimension stG).2 = 3 :=
  ⟨rfl, get_dimension_sum stG rfl, rfl⟩

/-- C10: on a task with zero registered features getDimension returns 0 and
overwrites the cached dim_task with 0 even when it previously held a nonzero
value; its total (exception-free) type reflects that no error is raised,
unlike the assembly operations of C4. -/
theorem get_dimension_empty (st : vpServo) (h : st.featureList = []) :
    (getDimension st).2 = 0 ∧ (getDimension st).1.dim_task = 0 := by
  unfold getDimension
  rw [h]
  exact ⟨rfl, rfl⟩

/-- Witness for C10 on a featureless task whose stale dim_task is 7. -/
theorem get_dimension_empty_witness :
    stH.featureList = [] ∧ stH.dim_task = 7 ∧
    ((getDimension stH).2 = 0 ∧ (getDimension stH).1.dim_task = 0) :=
  ⟨rfl, rfl, get_dimension_empty stH rfl⟩

/-- C9: kill is idempotent: after any call the killed flag is set, and a
call on a killed task releases no feature and returns the state unchanged,
so a second kill is a no-op with no double release. -/
theorem kill_idempotent (st : vpServo) :
    ((kill st).1).taskWasKilled = true ∧ kill ((kill st).1) = ((kill st).1, []) :=
  ⟨kill_flag st, kill_killed _ (kill_flag st)⟩

/-- Success equation of the body when the interaction matrix stage fails. -/
theorem body_eq_cimErr (pinv : Mat → PInvRes) (it : ℕ) (st : vpServo) (b : Bool)
    (cVa aJe : Mat) (st1 stI : vpServo) (er : Err)
    (hu : testUpdated st = Except.ok b)
    (hr : resolveKinematics st = Except.ok (cVa, aJe, st1))
    (hIe : computeInteractionMatrix st1 = (stI, Except.error er)) :
    controlLawBody pinv it st = (stI, it, Except.error er) := by
  simp only [controlLawBody, hu, hr, hIe]

/-- C4: invoked with zero registered features, computeControlLaw fails with
the no-feature (empty feature set) error and the cached dim_task keeps its
previous value; computeInteractionMatrix and computeError fail the same way
leaving the state untouched. -/
theorem empty_feature_set (pinv : Mat → PInvRes) (it : ℕ) (st : vpServo)
    (hf : st.featureList = []) (hd : st.desiredFeatureList = [])
    (hty : st.servoType ≠ ServoType.NONE)
    (hinit : it = 0 → testInitialization st = Except.ok true) :
    ((computeControlLaw pinv it st).2.2 = Except.error Err.noFeatureError ∧
      (computeControlLaw pinv it st).1.dim_task = st.dim_task) ∧
    computeInteractionMatrix st = (st, Except.error Err.noFeatureError) ∧
    computeError st = (st, Except.error Err.noFeatureError) := by
  obtain ⟨b, hu⟩ := tu_ok_of_ne st hty
  obtain ⟨p, hr⟩ := resolve_ok_of_ne st hty
  obtain ⟨cVa, aJe, st1⟩ := p
  obtain ⟨b1, b3, b4, b5, hshape⟩ := resolve_shape st _ hr
  simp only at hshape
  have hf1 : st1.featureList = [] := by rw [hshape]; exact hf
  have hd1 : st1.desiredFeatureList = [] := by rw [hshape]; exact hd
  have hIe := cim_empty st1 hf1 hd1
  have hbody : controlLawBody pinv it st = (st1, it, Except.error Err.noFeatureError) :=
    body_eq_cimErr pinv it st b cVa aJe st1 st1 Err.noFeatureError hu hr hIe
  have hlaw : computeControlLaw pinv it st = (st1, it, Except.error Err.noFeatureError) := by
    unfold computeControlLaw
    by_cases hit : it = 0
    · rw [if_pos hit, hinit hit]
      exact hbody
    · rw [if_neg hit]
      exact hbody
  refine ⟨⟨by rw [hlaw], by rw [hlaw, hshape]⟩, cim_empty st hf hd, cerr_empty st hf⟩

/-- Witness for C4 on a camera-frame task with stale dim_task 3 and no
features, on the very first cycle. -/
theorem empty_feature_set_witness :
    stEmpty.featureList = [] ∧ stEmpty.desiredFeatureList = [] ∧
    stEmpty.servoType ≠ ServoType.NONE ∧ stEmpty.dim_task = 3 ∧
    (((computeControlLaw pinvB 0 stEmpty).2.2 = Except.error Err.noFeatureError ∧
      (computeControlLaw pinvB 0 stEmpty).1.dim_task = stEmpty.dim_task) ∧
    computeInteractionMatrix stEmpty = (stEmpty, Except.error Err.noFeatureError) ∧
    computeError stEmpty = (stEmpty, Except.error Err.noFeatureError)) :=
  ⟨rfl, rfl, by decide, rfl,
    empty_feature_set pinvB 0 stEmpty rfl rfl (by decide) (fun _ => rfl)⟩
/-- computeError only ever changes s, sStar, error, dim_task and the
computed flag of the state, whatever the outcome. -/
theorem cerr_shape_any (st : vpServo) : ∃ S2 SS2 E2 d2 b2, (computeError st).1 =
    {st with s := S2, sStar := SS2, error := E2, dim_task := d2, errorComputed := b2} := by
  unfold computeError
  by_cases h1 : st.featureList.isEmpty
  · rw [if_pos h1]
    exact ⟨st.s, st.sStar, st.error, st.dim_task, st.errorComputed, rfl⟩
  · rw [if_neg h1]
    by_cases h2 : st.desiredFeatureList.isEmpty
    · rw [if_pos h2]
      exact ⟨st.s, st.sStar, st.error, st.dim_task, st.errorComputed, rfl⟩
    · rw [if_neg h2]
      exact ⟨_, _, _, _, _, rfl⟩

/-- Inversion of a successful computeControlLaw, phrased on the output
projections. -/
theorem law_ok_inv (pinv : Mat → PInvRes) (it : ℕ) (st : vpServo) (v : Vec)
    (h : (computeControlLaw pinv it st).2.2 = Except.ok v) :
    ∃ cVa aJe st1 stI stE2,
      resolveKinematics st = Except.ok (cVa, aJe, st1) ∧
      (∃ LL, computeInteractionMatrix st1 = (stI, Except.ok LL)) ∧
      (∃ ee, computeError stI = (stE2, Except.ok ee)) ∧
      (computeControlLaw pinv it st).1 = lawCore pinv stE2 cVa aJe ∧
      (computeControlLaw pinv it st).2.1 = it + 1 ∧
      v = (computeControlLaw pinv it st).1.e := by
  have h' : computeControlLaw pinv it st =
      ((computeControlLaw pinv it st).1, (computeControlLaw pinv it st).2.1, Except.ok v) := by
    rw [← h]
  obtain ⟨cVa, aJe, st1, stI, stE2, hr, hI, hE, hst2, hit2, hv⟩ :=
    body_ok pinv it st _ _ v (law_ok_body pinv it st _ _ v h')
  exact ⟨cVa, aJe, st1, stI, stE2, hr, hI, hE, hst2, hit2, hv⟩

/-- The init flags of the state returned by a successful control-law cycle
are exactly those set by the kinematic selection step: the later stages never
touch them. -/
theorem law_flags (pinv : Mat → PInvRes) (it : ℕ) (st : vpServo) (v : Vec)
    (h : (computeControlLaw pinv it st).2.2 = Except.ok v) :
    ∃ cVa aJe st1, resolveKinematics st = Except.ok (cVa, aJe, st1) ∧
      (computeControlLaw pinv it st).1.init_cVe = st1.init_cVe ∧
      (computeControlLaw pinv it st).1.init_cVf = st1.init_cVf ∧
      (computeControlLaw pinv it st).1.init_fVe = st1.init_fVe ∧
      (computeControlLaw pinv it st).1.init_eJe = st1.init_eJe ∧
      (computeControlLaw pinv it st).1.init_fJe = st1.init_fJe := by
  obtain ⟨cVa, aJe, st1, stI, stE2, hr, ⟨LL, hI⟩, ⟨ee, hE⟩, hst2, _, _⟩ :=
    law_ok_inv pinv it st v h
  obtain ⟨L2, d2, b2, hIshape⟩ := cim_shape st1
  obtain ⟨S2, SS2, E2, d3, b3, hEshape⟩ := cerr_shape_any stI
  obtain ⟨a, b, c, d, f, g, hLshape⟩ := lawCore_shape pinv stE2 cVa aJe
  have hIfst : (computeInteractionMatrix st1).1 = stI := by rw [hI]
  have hEfst : (computeError stI).1 = stE2 := by rw [hE]
  rw [hIshape] at hIfst
  rw [hEshape] at hEfst
  refine ⟨cVa, aJe, st1, hr, ?_, ?_, ?_, ?_, ?_⟩ <;>
    rw [hst2, hLshape, ← hEfst, ← hIfst]

/-- C2 (amended): after a successful computeControlLaw cycle the freshness
flags of the consumed kinematic inputs are cleared with one exception: both
eye-to-hand cVf configurations consume the cVf twist but never clear
init_cVf.  The cVe/eJe configurations clear init_cVe and init_eJe; the
cVf*fVe*eJe configuration clears init_fVe and init_eJe, leaving init_cVf and
init_cVe untouched; the cVf*fJe configuration clears only init_fJe, leaving
init_cVf, init_cVe and init_eJe untouched. -/
theorem consumed_flags_amended (pinv : Mat → PInvRes) (it : ℕ) (st : vpServo) (v : Vec)
    (h : (computeControlLaw pinv it st).2.2 = Except.ok v) :
    (computeControlLaw pinv it st).1.init_cVf = st.init_cVf ∧
    ((st.servoType = ServoType.EYEINHAND_CAMERA ∨
      st.servoType = ServoType.EYEINHAND_L_cVe_eJe ∨
      st.servoType = ServoType.EYETOHAND_L_cVe_eJe) →
        (computeControlLaw pinv it st).1.init_cVe = false ∧
        (computeControlLaw pinv it st).1.init_eJe = false) ∧
    (st.servoType = ServoType.EYETOHAND_L_cVf_fVe_eJe →
        (computeControlLaw pinv it st).1.init_fVe = false ∧
        (computeControlLaw pinv it st).1.init_eJe = false ∧
        (computeControlLaw pinv it st).1.init_cVe = st.init_cVe) ∧
    (st.servoType = ServoType.EYETOHAND_L_cVf_fJe →
        (computeControlLaw pinv it st).1.init_fJe = false ∧
        (computeControlLaw pinv it st).1.init_cVe = st.init_cVe ∧
        (computeControlLaw pinv it st).1.init_eJe = st.init_eJe) := by
  obtain ⟨cVa, aJe, st1, hr, f1, f2, f3, f4, f5⟩ := law_flags pinv it st v h
  obtain ⟨b1, b3, b4, b5, hshape⟩ := resolve_shape st _ hr
  simp only at hshape
  refine ⟨by rw [f2, hshape], ?_, ?_, ?_⟩
  · rintro (hty | hty | hty)
    · rw [resolve_eq_cam st hty] at hr
      have := Except.ok.inj hr
      have hst1 : st1 = {st with init_cVe := false, init_eJe := false} := by
        have h3 := congrArg (fun q => q.2.2) this
        exact h3.symm
      rw [f1, f4, hst1]
      exact ⟨rfl, rfl⟩
    · rw [resolve_eq_eih st hty] at hr
      have := Except.ok.inj hr
      have hst1 : st1 = {st with init_cVe := false, init_eJe := false} := by
        have h3 := congrArg (fun q => q.2.2) this
        exact h3.symm
      rw [f1, f4, hst1]
      exact ⟨rfl, rfl⟩
    · rw [resolve_eq_eth st hty] at hr
      have := Except.ok.inj hr
      have hst1 : st1 = {st with init_cVe := false, init_eJe := false} := by
        have h3 := congrArg (fun q => q.2.2) this
        exact h3.symm
      rw [f1, f4, hst1]
      exact ⟨rfl, rfl⟩
  · intro hty
    rw [resolve_eq_fve st hty] at hr
    have := Except.ok.inj hr
    have hst1 : st1 = {st with init_fVe := false, init_eJe := false} := by
      have h3 := congrArg (fun q => q.2.2) this
      exact h3.symm
    rw [f1, f3, f4, hst1]
    exact ⟨rfl, rfl, rfl⟩
  · intro hty
    rw [resolve_eq_fje st hty] at hr
    have := Except.ok.inj hr
    have hst1 : st1 = {st with init_fJe := false} := by
      have h3 := congrArg (fun q => q.2.2) this
      exact h3.symm
    rw [f1, f4, f5, hst1]
    exact ⟨rfl, rfl, rfl⟩

/-- C2 counterexample: in the eye-to-hand cVf*fJe configuration a successful
cycle consumes cVf (the selected cVa is exactly the supplied, non-identity
cVf twist) yet the cycle returns its output with init_cVf still set: the
freshness flag of a consumed input is not cleared, refuting the claim for
this configuration. -/
theorem consumed_flags_cex :
    (resolveKinematics stE).map (fun p => p.1) = Except.ok stE.cVf ∧
    stE.cVf ≠ identityM 6 ∧
    stE.init_cVf = true ∧
    (computeControlLaw pinvB 1 stE).2.2 = Except.ok [0, 1, 0, 0, 0, 0] ∧
    (computeControlLaw pinvB 1 stE).1.init_cVf = true ∧
    (computeControlLaw pinvB 1 stE).1.init_fJe = false :=
  ⟨rfl, by decide, rfl, by decide, by decide, by decide⟩

/-- Witness for the amended C2 on the concrete cVf*fJe run. -/
theorem consumed_flags_witness :
    (computeControlLaw pinvB 1 stE).2.2 = Except.ok [0, 1, 0, 0, 0, 0] ∧
    ((computeControlLaw pinvB 1 stE).1.init_cVf = stE.init_cVf ∧
    ((stE.servoType = ServoType.EYEINHAND_CAMERA ∨
      stE.servoType = ServoType.EYEINHAND_L_cVe_eJe ∨
      stE.servoType = ServoType.EYETOHAND_L_cVe_eJe) →
        (computeControlLaw pinvB 1 stE).1.init_cVe = false ∧
        (computeControlLaw pinvB 1 stE).1.init_eJe = false) ∧
    (stE.servoType = ServoType.EYETOHAND_L_cVf_fVe_eJe →
        (computeControlLaw pinvB 1 stE).1.init_fVe = false ∧
        (computeControlLaw pinvB 1 stE).1.init_eJe = false ∧
        (computeControlLaw pinvB 1 stE).1.init_cVe = stE.init_cVe) ∧
    (stE.servoType = ServoType.EYETOHAND_L_cVf_fJe →
        (computeControlLaw pinvB 1 stE).1.init_fJe = false ∧
        (computeControlLaw pinvB 1 stE).1.init_cVe = stE.init_cVe ∧
        (computeControlLaw pinvB 1 stE).1.init_eJe = stE.init_eJe)) :=
  ⟨by decide, consumed_flags_amended pinvB 1 stE [0, 1, 0, 0, 0, 0] (by decide)⟩
/-- C3 (amended): the cycle counter is the function-local static of
computeControlLaw, shared by every task instance in the process (modelled by
the explicit iteration argument threaded beside the instance state), not
per-instance state.  testInitialization is consulted exactly when that
process-wide counter is 0: a false result then aborts with servoError and
leaves state and counter unchanged; on any later call the test is skipped
and servoError can only come from the undefined configuration; the counter
advances exactly on the successful cycles. -/
theorem iteration_static_amended (pinv : Mat → PInvRes) (it : ℕ) (st : vpServo) :
    (it = 0 → testInitialization st = Except.ok false →
      computeControlLaw pinv it st = (st, it, Except.error Err.servoError)) ∧
    (∀ st2 it2 ex, computeControlLaw pinv it st = (st2, it2, ex) →
      (∀ v, ex = Except.ok v → it2 = it + 1) ∧
      (∀ er, ex = Except.error er → it2 = it)) ∧
    (it ≠ 0 → ∀ st2 it2,
      computeControlLaw pinv it st = (st2, it2, Except.error Err.servoError) →
      st.servoType = ServoType.NONE) := by
  refine ⟨?_, ?_, ?_⟩
  · intro hit hti
    unfold computeControlLaw
    rw [if_pos hit, hti]
  · intro st2 it2 ex h
    exact law_iter pinv it st st2 it2 ex h
  · intro hit st2 it2 h
    exact law_err_servo pinv it st st2 it2 hit h

/-- C3 counterexample: stB models a freshly constructed second task instance
(eye-to-hand cVf*fVe*eJe, fVe and eJe supplied, cVf never supplied) so its
own first cycle has testInitialization false; yet when the shared static
counter is already 1 the cycle succeeds without any initialization check,
while the very same state at counter 0 throws servoError — the check depends
on the process-wide counter, not on per-instance state, refuting the claim
that each instance has its first cycle checked. -/
theorem iteration_static_cex :
    testInitialization stB = Except.ok false ∧
    (computeControlLaw pinvB 1 stB).2.2 = Except.ok [1, 0, 0, 0, 0, 0] ∧
    (computeControlLaw pinvB 0 stB).2.2 = Except.error Err.servoError :=
  ⟨rfl, by decide, by decide⟩

/-- Witness for the amended C3: at counter 0 the failed initialization test
of stB aborts the cycle with servoError, leaving state and counter alone. -/
theorem iteration_static_witness :
    computeControlLaw pinvB 0 stB = (stB, 0, Except.error Err.servoError) :=
  (iteration_static_amended pinvB 0 stB).1 rfl rfl

/-- C7: the stacked assembly loop produces a result whose row count is the
sum of the per-feature contribution row counts taken in registration order,
and the resulting entries are independent of the initial buffer — in
particular of its capacity, whether 1, 1000 or the exact final size; the
vector assembler used for the current-value, desired-value and error vectors
satisfies the same property for any contribution list. -/
theorem assembly_stack_spec (fl : List BasicFeature) (sl : List Int) (vcs : List Vec)
    (hne : fl ≠ [])
    (hw : ∀ M ∈ contribsOf fl sl, ∀ row ∈ M, row.length = 6) :
    (∀ buf : Mat, computeInteractionMatrixFromList fl sl buf =
      Except.ok ((contribsOf fl sl).flatten)) ∧
    ((contribsOf fl sl).flatten).length = ((contribsOf fl sl).map List.length).sum ∧
    (∀ buf : Vec, vecAsm vcs buf = vcs.flatten) ∧
    (vcs.flatten).length = (vcs.map List.length).sum :=
  ⟨fun buf => cimFromList_eq fl sl buf hne hw, List.length_flatten _,
    fun buf => vecAsm_eq_flatten vcs buf, List.length_flatten _⟩

/-- Witness for C7: a two-feature list (1-row and 2-row contributions) and a
vector contribution list, assembled from capacities 1, 1000 and the exact
final size, all give the same stacked result of total size 3. -/
theorem assembly_stack_witness :
    ([feat1, feat2] ≠ ([] : List BasicFeature)) ∧
    (∀ M ∈ contribsOf [feat1, feat2] [0, 0], ∀ row ∈ M, row.length = 6) ∧
    (∀ buf : Mat, computeInteractionMatrixFromList [feat1, feat2] [0, 0] buf =
      Except.ok ((contribsOf [feat1, feat2] [0, 0]).flatten)) ∧
    computeInteractionMatrixFromList [feat1, feat2] [0, 0] (zerosM 1 6) =
      Except.ok ((contribsOf [feat1, feat2] [0, 0]).flatten) ∧
    computeInteractionMatrixFromList [feat1, feat2] [0, 0] (zerosM 1000 6) =
      Except.ok ((contribsOf [feat1, feat2] [0, 0]).flatten) ∧
    computeInteractionMatrixFromList [feat1, feat2] [0, 0]
        (zerosM ((contribsOf [feat1, feat2] [0, 0]).flatten).length 6) =
      Except.ok ((contribsOf [feat1, feat2] [0, 0]).flatten) ∧
    ((contribsOf [feat1, feat2] [0, 0]).flatten).length = 3 ∧
    vecAsm [[1], [2, 3]] (List.replicate 1000 0) = [1, 2, 3] := by
  have hmain := assembly_stack_spec [feat1, feat2] [0, 0] [[1], [2, 3]]
    (by simp) (by decide)
  exact ⟨by simp, by decide, hmain.1, hmain.1 (zerosM 1 6), hmain.1 (zerosM 1000 6),
    hmain.1 (zerosM _ 6), by decide, by rw [hmain.2.2.1 (List.replicate 1000 0)]; rfl⟩

theorem divM_addM_eq_avgM (A B : Mat) : divM (addM A B) 2 = avgM A B := by
  simp only [divM, addM, avgM, List.map_map]
  congr 1
  funext i
  simp only [Function.comp, List.map_map]
  rfl

/-- C6: for a nonempty feature set whose interaction contributions have the
interface width 6 and whose current and desired assemblies have equal
dimensions, average (MEAN) mode returns the elementwise average of the
current-mode result and the desired-mode result for the same feature set. -/
theorem mean_mode_average (st : vpServo)
    (hf : st.featureList ≠ []) (hd : st.desiredFeatureList ≠ [])
    (hwc : ∀ M ∈ contribsOf st.featureList st.featureSelectionList,
      ∀ row ∈ M, row.length = 6)
    (hwd : ∀ M ∈ contribsOf st.desiredFeatureList st.featureSelectionList,
      ∀ row ∈ M, row.length = 6)
    (hdim : ((contribsOf st.featureList st.featureSelectionList).flatten).length =
      ((contribsOf st.desiredFeatureList st.featureSelectionList).flatten).length) :
    ∃ Lc Ld,
      (computeInteractionMatrix {st with interactionMatrixType := IMType.CURRENT}).2 =
        Except.ok Lc ∧
      (computeInteractionMatrix {st with interactionMatrixType := IMType.DESIRED}).2 =
        Except.ok Ld ∧
      (computeInteractionMatrix {st with interactionMatrixType := IMType.MEAN}).2 =
        Except.ok (avgM Lc Ld) := by
  refine ⟨(contribsOf st.featureList st.featureSelectionList).flatten,
    (contribsOf st.desiredFeatureList st.featureSelectionList).flatten, ?_, ?_, ?_⟩
  · rw [cim_eq_current {st with interactionMatrixType := IMType.CURRENT} rfl _
      (cimFromList_eq _ _ _ hf hwc)]
  · rw [cim_eq_desired {st with interactionMatrixType := IMType.DESIRED} rfl _
      (cimFromList_eq _ _ _ hd hwd)]
  · rw [cim_eq_mean {st with interactionMatrixType := IMType.MEAN} rfl _ _
      (cimFromList_eq _ _ _ hf hwc) (cimFromList_eq _ _ _ hd hwd),
      divM_addM_eq_avgM]

/-- Witness for C6 on a one-feature task whose buffer holds stale rows. -/
theorem mean_mode_average_witness :
    stF.featureList ≠ [] ∧ stF.desiredFeatureList ≠ [] ∧
    (∃ Lc Ld,
      (computeInteractionMatrix {stF with interactionMatrixType := IMType.CURRENT}).2 =
        Except.ok Lc ∧
      (computeInteractionMatrix {stF with interactionMatrixType := IMType.DESIRED}).2 =
        Except.ok Ld ∧
      (computeInteractionMatrix {stF with interactionMatrixType := IMType.MEAN}).2 =
        Except.ok (avgM Lc Ld)) :=
  ⟨by simp [stF], by simp [stF], mean_mode_average stF (by simp [stF]) (by simp [stF])
    (by decide) (by decide) (by decide)⟩
/-- A successful computeControlLaw is lawCore applied to an intermediate
state that inherits the inversion mode, the stored rank, the stored
projector and the gain from the input state, and whose L and error fields
are the ones the final state exposes. -/
theorem law_pres (pinv : Mat → PInvRes) (it : ℕ) (st : vpServo) (v : Vec)
    (h : (computeControlLaw pinv it st).2.2 = Except.ok v) :
    ∃ cVa aJe stE2,
      (computeControlLaw pinv it st).1 = lawCore pinv stE2 cVa aJe ∧
      stE2.inversionType = st.inversionType ∧
      stE2.rankJ1 = st.rankJ1 ∧
      stE2.WpW = st.WpW ∧
      (∀ row ∈ stE2.L, row.length = 6) := by
  obtain ⟨cVa, aJe, st1, stI, stE2, hr, ⟨LL, hI⟩, ⟨ee, hE⟩, hst2, _, _⟩ :=
    law_ok_inv pinv it st v h
  obtain ⟨b1, b3, b4, b5, hshape⟩ := resolve_shape st _ hr
  simp only at hshape
  obtain ⟨hIL, hId, hIrows⟩ := cim_ok_spec st1 LL (by rw [hI])
  obtain ⟨S2, SS2, E2, d3, bb3, hEshape⟩ := cerr_shape_any stI
  have hIfst : (computeInteractionMatrix st1).1 = stI := by rw [hI]
  have hEfst : (computeError stI).1 = stE2 := by rw [hE]
  have hstIL : stI.L = LL := by rw [← hIfst, hIL]
  obtain ⟨L2, d2, b2, hIshape⟩ := cim_shape st1
  rw [hIshape] at hIfst
  rw [hEshape] at hEfst
  refine ⟨cVa, aJe, stE2, hst2, ?_, ?_, ?_, ?_⟩
  · rw [← hEfst, ← hIfst, hshape]
  · rw [← hEfst, ← hIfst, hshape]
  · rw [← hEfst, ← hIfst, hshape]
  · have hL : stE2.L = LL := by rw [← hEfst]; exact hstIL
    rw [hL]
    exact hIrows

/-- C1 (amended): in transpose inversion mode J1p is indeed the transpose of
the task Jacobian, but the task is not unconditionally treated as full rank:
the branch is chosen by comparing the rank value left in rankJ1 from before
the call with the column count of L.  Only when they agree is
e1 = J1p * error computed with no projector and rankJ1 and WpW untouched;
otherwise a pseudo-inverse of J1 is computed just for its range image,
rankJ1 is overwritten with the rank it reports, the range-space projector
WpW is formed and stored, and e1 = WpW * J1p * error. -/
theorem transpose_inversion_amended (pinv : Mat → PInvRes) (it : ℕ) (st : vpServo) (v : Vec)
    (hT : st.inversionType = InvType.TRANSPOSE)
    (h : (computeControlLaw pinv it st).2.2 = Except.ok v)
    (st2 : vpServo) (hst : st2 = (computeControlLaw pinv it st).1) :
    st2.J1p = transposeM st2.J1 ∧
    (st.rankJ1 = getCols st2.L →
      st2.e1 = mulMV st2.J1p st2.error ∧ st2.WpW = st.WpW ∧ st2.rankJ1 = st.rankJ1) ∧
    (st.rankJ1 ≠ getCols st2.L →
      st2.rankJ1 = (pinv st2.J1).rank ∧
      st2.WpW = mulM (pinv st2.J1).imJ1t (transposeM (pinv st2.J1).imJ1t) ∧
      st2.e1 = mulMV (mulM st2.WpW st2.J1p) st2.error) := by
  obtain ⟨cVa, aJe, stE2, hst2, hpinv, hprank, hpW, _⟩ := law_pres pinv it st v h
  rw [hst2] at hst
  subst hst
  have hinv2 : stE2.inversionType = InvType.TRANSPOSE := by rw [hpinv, hT]
  by_cases hrk : stE2.rankJ1 = getCols stE2.L
  · rw [lawCore_eq_t_full pinv stE2 cVa aJe hinv2 hrk]
    refine ⟨rfl, fun _ => ⟨rfl, hpW, hprank⟩, fun hne => absurd ?_ hne⟩
    rw [← hprank]
    exact hrk
  · rw [lawCore_eq_t_def pinv stE2 cVa aJe hinv2 hrk]
    refine ⟨rfl, fun heq => absurd ?_ hrk, fun hne => ⟨rfl, rfl, rfl⟩⟩
    rw [hprank]
    exact heq

/-- C1 counterexample: a transpose-mode camera-frame task whose stored
rankJ1 is 0 runs one cycle; far from treating the task as full rank, the
cycle computes a pseudo-inverse for the range image, stores the actual rank
1 and the range-space projector, and a subsequent secondaryTask call
succeeds — which is only possible because the task was not treated as full
rank. -/
theorem transpose_inversion_cex :
    stC.inversionType = InvType.TRANSPOSE ∧
    stC.rankJ1 = 0 ∧ stC.WpW = [] ∧
    (computeControlLaw pinvB 1 stC).2.2 = Except.ok [-1, 0, 0, 0, 0, 0] ∧
    (computeControlLaw pinvB 1 stC).1.rankJ1 = 1 ∧
    (computeControlLaw pinvB 1 stC).1.WpW =
      [[1, 0, 0, 0, 0, 0], [0, 0, 0, 0, 0, 0], [0, 0, 0, 0, 0, 0],
        [0, 0, 0, 0, 0, 0], [0, 0, 0, 0, 0, 0], [0, 0, 0, 0, 0, 0]] ∧
    (secondaryTask1 (computeControlLaw pinvB 1 stC).1 [1, 1, 1, 1, 1, 1]).2 =
      Except.ok [0, 1, 1, 1, 1, 1] :=
  ⟨rfl, rfl, rfl, by decide, by decide, by decide, by decide⟩

/-- Witness for the amended C1 on the concrete transpose-mode run. -/
theorem transpose_inversion_witness :
    stC.inversionType = InvType.TRANSPOSE ∧
    (computeControlLaw pinvB 1 stC).2.2 = Except.ok [-1, 0, 0, 0, 0, 0] ∧
    ((computeControlLaw pinvB 1 stC).1.J1p = transposeM (computeControlLaw pinvB 1 stC).1.J1 ∧
    (stC.rankJ1 = getCols (computeControlLaw pinvB 1 stC).1.L →
      (computeControlLaw pinvB 1 stC).1.e1 =
        mulMV (computeControlLaw pinvB 1 stC).1.J1p (computeControlLaw pinvB 1 stC).1.error ∧
      (computeControlLaw pinvB 1 stC).1.WpW = stC.WpW ∧
      (computeControlLaw pinvB 1 stC).1.rankJ1 = stC.rankJ1) ∧
    (stC.rankJ1 ≠ getCols (computeControlLaw pinvB 1 stC).1.L →
      (computeControlLaw pinvB 1 stC).1.rankJ1 =
        (pinvB (computeControlLaw pinvB 1 stC).1.J1).rank ∧
      (computeControlLaw pinvB 1 stC).1.WpW =
        mulM (pinvB (computeControlLaw pinvB 1 stC).1.J1).imJ1t
          (transposeM (pinvB (computeControlLaw pinvB 1 stC).1.J1).imJ1t) ∧
      (computeControlLaw pinvB 1 stC).1.e1 =
        mulMV (mulM (computeControlLaw pinvB 1 stC).1.WpW (computeControlLaw pinvB 1 stC).1.J1p)
          (computeControlLaw pinvB 1 stC).1.error)) :=
  ⟨rfl, by decide,
    transpose_inversion_amended pinvB 1 stC [-1, 0, 0, 0, 0, 0] rfl (by decide) _ rfl⟩
theorem secTask1_err (st : vpServo) (d : Vec) (hq : st.rankJ1 = getCols st.L) :
    secondaryTask1 st d = (st, Except.error Err.noDofFree) := by
  unfold secondaryTask1
  rw [if_pos hq]

theorem secTask1_ok (st : vpServo) (d : Vec) (hq : st.rankJ1 ≠ getCols st.L) :
    secondaryTask1 st d =
      ({st with I_WpW := subM (identityM (getCols st.J1)) st.WpW},
        Except.ok (mulMV (subM (identityM (getCols st.J1)) st.WpW) d)) := by
  unfold secondaryTask1
  rw [if_neg hq]

theorem secTask2_err (st : vpServo) (e2v d : Vec) (hq : st.rankJ1 = getCols st.L) :
    secondaryTask2 st e2v d = (st, Except.error Err.noDofFree) := by
  unfold secondaryTask2
  rw [if_pos hq]

theorem secTask2_ok (st : vpServo) (e2v d : Vec) (hq : st.rankJ1 ≠ getCols st.L) :
    secondaryTask2 st e2v d =
      ({st with I_WpW := subM (identityM (getCols st.J1)) st.WpW},
        Except.ok (addV
          (mulMV (smulM (-(st.lambda e2v)) (subM (identityM (getCols st.J1)) st.WpW)) e2v)
          (mulMV (subM (identityM (getCols st.J1)) st.WpW) d))) := by
  unfold secondaryTask2
  rw [if_neg hq]

/-- C5: after a successful computeControlLaw cycle with a nonempty
interaction matrix (whose column count is then the fixed 6), both
secondaryTask forms throw noDofFree exactly when the stored rank of J1
equals 6; otherwise they return (I - WpW) * de2dt, respectively
-lambda(e2) * (I - WpW) * e2 + (I - WpW) * de2dt, where WpW is the
range-space projector stored by that same cycle, built from the range image
of the cycle's own task Jacobian. -/
theorem secondary_task_spec (pinv : Mat → PInvRes) (it : ℕ) (st : vpServo)
    (v de2dt e2v : Vec)
    (h : (computeControlLaw pinv it st).2.2 = Except.ok v)
    (st2 : vpServo) (hst : st2 = (computeControlLaw pinv it st).1)
    (hL : st2.L ≠ []) :
    getCols st2.L = 6 ∧
    (((secondaryTask1 st2 de2dt).2 = Except.error Err.noDofFree) ↔ st2.rankJ1 = 6) ∧
    (((secondaryTask2 st2 e2v de2dt).2 = Except.error Err.noDofFree) ↔ st2.rankJ1 = 6) ∧
    (st2.rankJ1 ≠ 6 →
      (secondaryTask1 st2 de2dt).2 =
        Except.ok (mulMV (subM (identityM (getCols st2.J1)) st2.WpW) de2dt) ∧
      (secondaryTask2 st2 e2v de2dt).2 =
        Except.ok (addV
          (mulMV (smulM (-(st2.lambda e2v)) (subM (identityM (getCols st2.J1)) st2.WpW)) e2v)
          (mulMV (subM (identityM (getCols st2.J1)) st2.WpW) de2dt)) ∧
      st2.WpW = mulM (pinv st2.J1).imJ1t (transposeM (pinv st2.J1).imJ1t)) := by
  obtain ⟨cVa, aJe, stE2, hst2, hpinv, hprank, hpW, hrows⟩ := law_pres pinv it st v h
  rw [hst2] at hst
  subst hst
  obtain ⟨a, b, c, d, f, g, hLshape⟩ := lawCore_shape pinv stE2 cVa aJe
  have hL2 : (lawCore pinv stE2 cVa aJe).L = stE2.L := by rw [hLshape]
  have hc6 : getCols (lawCore pinv stE2 cVa aJe).L = 6 := by
    rw [hL2]
    exact getCols_of_rows stE2.L (by rw [← hL2]; exact hL) hrows
  refine ⟨hc6, ?_, ?_, ?_⟩
  · constructor
    · intro he
      by_cases hq : (lawCore pinv stE2 cVa aJe).rankJ1 = getCols (lawCore pinv stE2 cVa aJe).L
      · rw [hq, hc6]
      · rw [secTask1_ok _ _ hq] at he
        exact absurd he (by simp)
    · intro h6
      rw [secTask1_err _ _ (by rw [h6, hc6])]
  · constructor
    · intro he
      by_cases hq : (lawCore pinv stE2 cVa aJe).rankJ1 = getCols (lawCore pinv stE2 cVa aJe).L
      · rw [hq, hc6]
      · rw [secTask2_ok _ _ _ hq] at he
        exact absurd he (by simp)
    · intro h6
      rw [secTask2_err _ _ _ (by rw [h6, hc6])]
  · intro hne
    have hq : (lawCore pinv stE2 cVa aJe).rankJ1 ≠ getCols (lawCore pinv stE2 cVa aJe).L := by
      rw [hc6]
      exact hne
    refine ⟨by rw [secTask1_ok _ _ hq], by rw [secTask2_ok _ _ _ hq], ?_⟩
    have hq2 : (lawCore pinv stE2 cVa aJe).rankJ1 ≠ getCols stE2.L := by
      rw [← hL2]
      exact hq
    exact lawCore_WpW pinv stE2 cVa aJe hq2

/-- Witness for C5 on the concrete rank-1 run followed by both secondary
task forms. -/
theorem secondary_task_witness :
    (computeControlLaw pinvB 1 stB).2.2 = Except.ok [1, 0, 0, 0, 0, 0] ∧
    (computeControlLaw pinvB 1 stB).1.L ≠ [] ∧
    (getCols (computeControlLaw pinvB 1 stB).1.L = 6 ∧
    (((secondaryTask1 (computeControlLaw pinvB 1 stB).1 [1, 1, 1, 1, 1, 1]).2 =
        Except.error Err.noDofFree) ↔ (computeControlLaw pinvB 1 stB).1.rankJ1 = 6) ∧
    (((secondaryTask2 (computeControlLaw pinvB 1 stB).1 [3, 0, 0, 0, 0, 0] [1, 1, 1, 1, 1, 1]).2 =
        Except.error Err.noDofFree) ↔ (computeControlLaw pinvB 1 stB).1.rankJ1 = 6) ∧
    ((computeControlLaw pinvB 1 stB).1.rankJ1 ≠ 6 →
      (secondaryTask1 (computeControlLaw pinvB 1 stB).1 [1, 1, 1, 1, 1, 1]).2 =
        Except.ok (mulMV (subM (identityM (getCols (computeControlLaw pinvB 1 stB).1.J1))
          (computeControlLaw pinvB 1 stB).1.WpW) [1, 1, 1, 1, 1, 1]) ∧
      (secondaryTask2 (computeControlLaw pinvB 1 stB).1 [3, 0, 0, 0, 0, 0] [1, 1, 1, 1, 1, 1]).2 =
        Except.ok (addV
          (mulMV (smulM (-((computeControlLaw pinvB 1 stB).1.lambda [3, 0, 0, 0, 0, 0]))
            (subM (identityM (getCols (computeControlLaw pinvB 1 stB).1.J1))
              (computeControlLaw pinvB 1 stB).1.WpW)) [3, 0, 0, 0, 0, 0])
          (mulMV (subM (identityM (getCols (computeControlLaw pinvB 1 stB).1.J1))
            (computeControlLaw pinvB 1 stB).1.WpW) [1, 1, 1, 1, 1, 1])) ∧
      (computeControlLaw pinvB 1 stB).1.WpW =
        mulM (pinvB (computeControlLaw pinvB 1 stB).1.J1).imJ1t
          (transposeM (pinvB (computeControlLaw pinvB 1 stB).1.J1).imJ1t))) :=
  ⟨by decide, by decide,
    secondary_task_spec pinvB 1 stB [1, 0, 0, 0, 0, 0] [1, 1, 1, 1, 1, 1] [3, 0, 0, 0, 0, 0]
      (by decide) _ rfl (by decide)⟩
end Visp
